import Mathlib

/-!
# Verification of the remote-queries manager and compare view

Shallow embedding of the two source files of this repository:

* `src/extensions/ql-vscode/src/remote-queries/remote-queries-manager.ts`
  (the `RemoteQueriesManager` class), and
* the compare-view controller (`CompareView` class).

TypeScript values are modelled as follows: strings as `String`, numbers
that are counts or sizes as `Nat`, timestamps as `Int`, optional fields
as `Option`, and JavaScript truthiness of an optional number
(`undefined` and `0` are falsy) or an optional string (`undefined` and
`""` are falsy) by explicit helpers.  Asynchronous methods whose only
effects are firing events, writing files, posting messages to the
webview or kicking off background commands are embedded as pure
functions returning a record of those effects, in the order the source
performs them.
-/

/-- Truthiness of an optional number in JavaScript: `undefined` and `0`
are falsy, every other number is truthy. -/
def truthyNum : Option Nat → Bool
  | some n => n != 0
  | none => false

/-- Truthiness of an optional string in JavaScript: `undefined` and the
empty string are falsy. -/
def truthyStr : Option String → Bool
  | some s => s != ""
  | none => false

namespace RemoteQueries

/-- `download-link.ts` (imported by the manager): a link to an artifact
to download, as constructed in `mapQueryResult`. -/
structure DownloadLink where
  id : String
  urlPath : String
  innerFilePath : String
  queryId : String
  deriving Repr, DecidableEq

/-- One per-repository analysis summary of a `RemoteQueryResult`, with
exactly the fields `mapQueryResult` constructs. -/
structure AnalysisSummary where
  nwo : String
  databaseSha : String
  resultCount : Nat
  sourceLocationPrefix : String
  fileSizeInBytes : Nat
  starCount : Option Nat
  lastUpdated : Option Int
  downloadLink : DownloadLink
  deriving Repr, DecidableEq

/-- One per-repository analysis failure of a `RemoteQueryResult`. -/
structure AnalysisFailure where
  nwo : String
  error : String
  deriving Repr, DecidableEq

/-- `remote-query-result.ts`: the mapped result the manager persists and
shows, as constructed in `mapQueryResult`. -/
structure RemoteQueryResult where
  executionEndTime : Int
  analysisSummaries : List AnalysisSummary
  analysisFailures : List AnalysisFailure
  queryId : String
  deriving Repr, DecidableEq

/-- A success item of the remote query result index
(`remote-query-result-index.ts`), with the fields `mapQueryResult`
reads: `sha` and `sarifFileSize` are optional (the source guards them
with `||` and `?:`, i.e. JavaScript truthiness). -/
structure SuccessIndexItem where
  nwo : String
  sha : Option String
  resultCount : Nat
  sourceLocationPrefix : String
  sarifFileSize : Option Nat
  bqrsFileSize : Nat
  artifactId : Nat
  deriving Repr, DecidableEq

/-- A failure item of the remote query result index. -/
structure FailureIndexItem where
  nwo : String
  error : String
  deriving Repr, DecidableEq

/-- The result index fetched from the GitHub API
(`remote-query-result-index.ts`), with the fields the manager reads. -/
structure RemoteQueryResultIndex where
  artifactsUrlPath : String
  successes : List SuccessIndexItem
  failures : List FailureIndexItem
  deriving Repr, DecidableEq

/-- Star count and last-update date of one repository, as returned by
`getRepositoriesMetadata`. -/
structure RepoMetadata where
  starCount : Nat
  lastUpdated : Int
  deriving Repr, DecidableEq

/-- `RepositoriesMetadata`: a map from `nwo` to metadata; absent keys
are `undefined` in the source (`metadata[item.nwo]?.starCount`). -/
def RepositoriesMetadata := String → Option RepoMetadata

/-- The mapping of one success item of the result index to an analysis
summary, exactly as in the `resultIndex.successes.map` callback of
`mapQueryResult`:

* `databaseSha: item.sha || "HEAD"`,
* `fileSizeInBytes: item.sarifFileSize ? item.sarifFileSize : item.bqrsFileSize`,
* `starCount`/`lastUpdated` from `metadata[item.nwo]?.`,
* the download link's `urlPath` is
  `` `${resultIndex.artifactsUrlPath}/${item.artifactId}` `` and its
  `innerFilePath` is `results.sarif` when `item.sarifFileSize` is
  truthy and `results.bqrs` otherwise. -/
def mapSuccessItem (artifactsUrlPath queryId : String)
    (metadata : RepositoriesMetadata) (item : SuccessIndexItem) :
    AnalysisSummary :=
  { nwo := item.nwo
    databaseSha := if truthyStr item.sha then item.sha.getD "HEAD" else "HEAD"
    resultCount := item.resultCount
    sourceLocationPrefix := item.sourceLocationPrefix
    fileSizeInBytes :=
      if truthyNum item.sarifFileSize then item.sarifFileSize.getD 0
      else item.bqrsFileSize
    starCount := (metadata item.nwo).map RepoMetadata.starCount
    lastUpdated := (metadata item.nwo).map RepoMetadata.lastUpdated
    downloadLink :=
      { id := toString item.artifactId
        urlPath := artifactsUrlPath ++ "/" ++ toString item.artifactId
        innerFilePath :=
          if truthyNum item.sarifFileSize then "results.sarif"
          else "results.bqrs"
        queryId := queryId } }

/-- `RemoteQueriesManager.mapQueryResult`: maps the fetched result index
to the `RemoteQueryResult` that is persisted and displayed. -/
def mapQueryResult (executionEndTime : Int)
    (resultIndex : RemoteQueryResultIndex) (queryId : String)
    (metadata : RepositoriesMetadata) : RemoteQueryResult :=
  { executionEndTime := executionEndTime
    analysisSummaries :=
      resultIndex.successes.map
        (mapSuccessItem resultIndex.artifactsUrlPath queryId metadata)
    analysisFailures :=
      resultIndex.failures.map fun item =>
        { nwo := item.nwo, error := item.error }
    queryId := queryId }

/-- `const autoDownloadMaxSize = 300 * 1024;` -/
def autoDownloadMaxSize : Nat := 300 * 1024

/-- `const autoDownloadMaxCount = 100;` -/
def autoDownloadMaxCount : Nat := 100

/-- The download descriptor built for each analysis selected by
`autoDownloadRemoteQueryResults` and passed to
`loadAnalysesResults`. -/
structure AnalysisToDownload where
  nwo : String
  databaseSha : String
  resultCount : Nat
  sourceLocationPrefix : String
  downloadLink : DownloadLink
  fileSize : String
  deriving Repr, DecidableEq

/-- `RemoteQueriesManager.autoDownloadRemoteQueryResults`, restricted to
its data transformation: the list `analysesToDownload` that it hands to
`analysesResultsManager.loadAnalysesResults`
(`filter` by `fileSizeInBytes < autoDownloadMaxSize`, then
`slice(0, autoDownloadMaxCount)`, then `map` to the descriptor with
`fileSize: String(a.fileSizeInBytes)`). -/
def autoDownloadRemoteQueryResults (queryResult : RemoteQueryResult) :
    List AnalysisToDownload :=
  (((queryResult.analysisSummaries.filter
        fun a => a.fileSizeInBytes < autoDownloadMaxSize).take
      autoDownloadMaxCount).map
    fun a =>
      { nwo := a.nwo
        databaseSha := a.databaseSha
        resultCount := a.resultCount
        sourceLocationPrefix := a.sourceLocationPrefix
        downloadLink := a.downloadLink
        fileSize := toString a.fileSizeInBytes })

/-- `query-status.ts` (imported by the manager): the status carried by
query status-update events. -/
inductive QueryStatus where
  | InProgress
  | Completed
  | Failed
  deriving Repr, DecidableEq

/-- `UpdatedQueryStatusEvent`, as declared in the manager: `queryId` and
`status` are mandatory, the remaining fields optional. -/
structure UpdatedQueryStatusEvent where
  queryId : String
  status : QueryStatus
  failureReason : Option String := none
  repositoryCount : Option Nat := none
  resultCount : Option Nat := none
  deriving Repr, DecidableEq

/-- Modelled from the spec: `sumAnalysisSummariesResults` lives in
`remote-query-result.ts`, which is not among the reviewed sources; the
spec describes the total shown for a query as the sum of the
per-analysis result counts, so it is modelled as that sum. -/
def sumAnalysisSummariesResults (summaries : List AnalysisSummary) : Nat :=
  (summaries.map AnalysisSummary.resultCount).sum

/-- Whether `pat` occurs at the start of `cs`. -/
def startsWithList : List Char → List Char → Bool
  | _, [] => true
  | [], _ :: _ => false
  | c :: cs, p :: ps => c == p && startsWithList cs ps

/-- Whether `pat` occurs anywhere in `cs`. -/
def hasSubstr : List Char → List Char → Bool
  | cs, pat =>
    if startsWithList cs pat then true
    else
      match cs with
      | [] => false
      | _ :: rest => hasSubstr rest pat

/-- `String.prototype.includes`: substring containment. -/
def stringIncludes (s pat : String) : Bool :=
  hasSubstr s.data pat.data

/-- `queryWorkflowResult.error?.includes("cancelled")`: optional
chaining yields `undefined` (falsy) when `error` is absent. -/
def errorIncludesCancelled : Option String → Bool
  | some e => stringIncludes e "cancelled"
  | none => false

/-- The effects of `downloadAvailableResults` (and of
`monitorRemoteQuery`, which calls it): the status-update events fired,
the `storeJsonFile(queryId, fileName, value)` calls made, and the
query results whose auto-download was kicked off, each in source
order. -/
structure DownloadOutcome where
  events : List UpdatedQueryStatusEvent
  stored : List (String × String × RemoteQueryResult)
  autoDownloads : List RemoteQueryResult
  deriving Repr, DecidableEq

/-- `RemoteQueriesManager.downloadAvailableResults`.  The external fetch
`getRemoteQueryIndex` is an input: `resultIndex` is its result (`none`
when no result index artifact is available), `metadata` the result of
`getRepositoriesMetadata`.  When an index is available the manager maps
it, fires a `Completed` event with the repository and result counts,
stores the mapped result as `query-result.json` and kicks off the
auto-download; otherwise it fires a `Failed` event (with no failure
reason) and stores nothing. -/
def downloadAvailableResults (queryId : String) (executionEndTime : Int)
    (resultIndex : Option RemoteQueryResultIndex)
    (metadata : RepositoriesMetadata) : DownloadOutcome :=
  match resultIndex with
  | some idx =>
    let queryResult := mapQueryResult executionEndTime idx queryId metadata
    let resultCount := sumAnalysisSummariesResults queryResult.analysisSummaries
    { events :=
        [{ queryId := queryId
           status := QueryStatus.Completed
           repositoryCount := some queryResult.analysisSummaries.length
           resultCount := some resultCount }]
      stored := [(queryId, "query-result.json", queryResult)]
      autoDownloads := [queryResult] }
  | none =>
    { events := [{ queryId := queryId, status := QueryStatus.Failed }]
      stored := []
      autoDownloads := [] }

/-- The statuses of `RemoteQueryWorkflowResult`
(`remote-queries-monitor`), as matched by `monitorRemoteQuery`. -/
inductive WorkflowStatus where
  | CompletedSuccessfully
  | CompletedUnsuccessfully
  | Cancelled
  | InProgress
  deriving Repr, DecidableEq

/-- The workflow result returned by `remoteQueriesMonitor.monitorQuery`:
a status and an optional error message. -/
structure RemoteQueryWorkflowResult where
  status : WorkflowStatus
  error : Option String := none
  deriving Repr, DecidableEq

/-- The effects of `monitorRemoteQuery`: everything a
`DownloadOutcome` records, plus whether `downloadAvailableResults` was
invoked at all. -/
structure MonitorOutcome where
  events : List UpdatedQueryStatusEvent
  stored : List (String × String × RemoteQueryResult)
  autoDownloads : List RemoteQueryResult
  downloadAttempted : Bool
  deriving Repr, DecidableEq

/-- `RemoteQueriesManager.monitorRemoteQuery`, after
`remoteQueriesMonitor.monitorQuery` returned `workflowResult` at time
`executionEndTime`.  The branches follow the source: on
`CompletedSuccessfully` download the available results; on
`CompletedUnsuccessfully` with an error containing `"cancelled"`, and
on `Cancelled`, fire `Failed`/`"Cancelled"` and still download; on any
other `CompletedUnsuccessfully` fire `Failed` with the workflow error
and do not download; `InProgress` cannot be returned by the monitor. -/
def monitorRemoteQuery (queryId : String)
    (workflowResult : RemoteQueryWorkflowResult) (executionEndTime : Int)
    (resultIndex : Option RemoteQueryResultIndex)
    (metadata : RepositoriesMetadata) : MonitorOutcome :=
  match workflowResult.status with
  | WorkflowStatus.CompletedSuccessfully =>
    let d := downloadAvailableResults queryId executionEndTime resultIndex metadata
    { events := d.events
      stored := d.stored
      autoDownloads := d.autoDownloads
      downloadAttempted := true }
  | WorkflowStatus.CompletedUnsuccessfully =>
    if errorIncludesCancelled workflowResult.error then
      let d := downloadAvailableResults queryId executionEndTime resultIndex metadata
      { events :=
          { queryId := queryId
            status := QueryStatus.Failed
            failureReason := some "Cancelled" } :: d.events
        stored := d.stored
        autoDownloads := d.autoDownloads
        downloadAttempted := true }
    else
      { events :=
          [{ queryId := queryId
             status := QueryStatus.Failed
             failureReason := workflowResult.error }]
        stored := []
        autoDownloads := []
        downloadAttempted := false }
  | WorkflowStatus.Cancelled =>
    let d := downloadAvailableResults queryId executionEndTime resultIndex metadata
    { events :=
        { queryId := queryId
          status := QueryStatus.Failed
          failureReason := some "Cancelled" } :: d.events
      stored := d.stored
      autoDownloads := d.autoDownloads
      downloadAttempted := true }
  | WorkflowStatus.InProgress =>
    { events := []
      stored := []
      autoDownloads := []
      downloadAttempted := false }

/-- The local `repos` of `copyRemoteQueryRepoListToClipboard`: the
`nwo` names of the summaries with a positive result count, in
order. -/
def repoNames (queryResult : RemoteQueryResult) : List String :=
  (queryResult.analysisSummaries.filter fun a => 0 < a.resultCount).map
    AnalysisSummary.nwo

/-- `RemoteQueriesManager.copyRemoteQueryRepoListToClipboard`, applied
to the stored query result it retrieves: the text written to the
clipboard, or `none` when `repos.length > 0` fails and nothing is
written.  `eol` is the platform's `EOL` separator. -/
def copyRemoteQueryRepoListToClipboard (queryResult : RemoteQueryResult)
    (eol : String) : Option String :=
  let repos := repoNames queryResult
  if 0 < repos.length then
    let text :=
      ["\"new-repo-list\": ["] ++
        (repos.dropLast.map fun repo => "    \"" ++ repo ++ "\",") ++
        ["    \"" ++ (repos.getLast?.getD "") ++ "\""] ++
        ["]"]
    some (String.intercalate eol text)
  else
    none

/-- The clipboard contents after `copyRemoteQueryRepoListToClipboard`:
overwritten exactly when a write happens, untouched otherwise. -/
def clipboardAfterCopy (queryResult : RemoteQueryResult) (eol : String)
    (clipboard : String) : String :=
  match copyRemoteQueryRepoListToClipboard queryResult eol with
  | some t => t
  | none => clipboard

end RemoteQueries

namespace Compare

/-!
Embedding of the compare-view controller (`CompareView`).  The two
external CLI calls are inputs: `bqrsInfo` (mapping a results path to
its `BqrsInfo`) and `bqrsDecode` (mapping a results path and result-set
name to the decoded rows).  Effects are the messages posted to the
front-end view; a thrown exception is an `Except.error`.
-/

/-- One result-set schema of a `BqrsInfo`: its name and the names of
its columns. -/
structure ResultSetSchema where
  name : String
  columns : List String
  deriving Repr, DecidableEq

/-- `BqrsInfo` (from `bqrs-cli-types`): the `"result-sets"` field. -/
structure BqrsInfo where
  resultSets : List ResultSetSchema
  deriving Repr, DecidableEq

/-- `RawResultSet`: a decoded tabular result set with named columns. -/
structure RawResultSet where
  columns : List String
  rows : List (List String)
  deriving Repr, DecidableEq

/-- `RawQueryCompareResult`: the outcome of diffing two result sets —
the compared columns and the rows found only on each side. -/
structure RawQueryCompareResult where
  columns : List String
  fromRows : List (List String)
  toRows : List (List String)
  deriving Repr, DecidableEq

/-- The names of the result sets of a `BqrsInfo`. -/
def resultSetNamesOf (info : BqrsInfo) : List String :=
  info.resultSets.map ResultSetSchema.name

/-- Modelled from the spec: `findCommonResultSetNames` lives in
`result-set-names.ts`, which is not among the reviewed sources; the
spec says `showResults` computes "the result-set names common to both
queries' schemas", so it is modelled as the names of the first schema's
result sets that also name a result set of the second. -/
def findCommonResultSetNames (fromSchemas toSchemas : BqrsInfo) :
    List String :=
  (resultSetNamesOf fromSchemas).filter fun n =>
    (resultSetNamesOf toSchemas).contains n

/-- The triple returned by `findResultSetNames`. -/
structure ResultSetNames where
  currentResultSetDisplayName : Option String
  fromResultSetName : Option String
  toResultSetName : Option String
  deriving Repr, DecidableEq

/-- Modelled from the spec: `findResultSetNames` lives in
`result-set-names.ts`, which is not among the reviewed sources; per the
spec only a commonly-named selection is diffed, so the chosen name is
the selected one when it is common, and the first common name
otherwise (`none` when there is no common name). -/
def findResultSetNames (commonResultSetNames : List String)
    (selectedResultSetName : Option String) : ResultSetNames :=
  let chosen :=
    match selectedResultSetName with
    | some n =>
      if commonResultSetNames.contains n then some n
      else commonResultSetNames.head?
    | none => commonResultSetNames.head?
  { currentResultSetDisplayName := chosen
    fromResultSetName := chosen
    toResultSetName := chosen }

/-- `CompareView.getResultSet`: looks the named schema up in the
`BqrsInfo` and throws `` `Schema ${resultSetName} not found.` `` when it
is absent; otherwise decodes the chunk and combines it with the schema
(`bqrsToResultSet`, modelled as pairing the schema's column names with
the decoded rows). -/
def getResultSet (bqrsDecode : String → String → List (List String))
    (bqrsInfo : BqrsInfo) (resultSetName : Option String)
    (resultsPath : String) : Except String RawResultSet :=
  match resultSetName with
  | none => Except.error "Schema undefined not found."
  | some n =>
    match bqrsInfo.resultSets.find? (fun schema => schema.name == n) with
    | none => Except.error ("Schema " ++ n ++ " not found.")
    | some schema =>
      Except.ok { columns := schema.columns, rows := bqrsDecode resultsPath n }

/-- Projection of a row onto the cells of the given column names,
looked up by the position of each name in the row's own column list. -/
def projectRow (cols selection : List String) (row : List String) :
    List String :=
  selection.filterMap fun c => (cols.zip row).lookup c

/-- Modelled from the spec: `resultsDiff` lives in `resultsDiff.ts`,
which is not among the reviewed sources; the spec (and the source
comment at the `compareResults` call site) says it compares only
columns that have the same name in both result sets, so it is modelled
as projecting both tables onto the commonly-named columns and keeping
the rows unique to each side. -/
def resultsDiff (fromResults toResults : RawResultSet) :
    RawQueryCompareResult :=
  let commonColumns :=
    fromResults.columns.filter fun c => toResults.columns.contains c
  let fromProjected :=
    fromResults.rows.map (projectRow fromResults.columns commonColumns)
  let toProjected :=
    toResults.rows.map (projectRow toResults.columns commonColumns)
  { columns := commonColumns
    fromRows := fromProjected.filter fun r => !toProjected.contains r
    toRows := toProjected.filter fun r => !fromProjected.contains r }

/-- `CompareView.compareResults`: the wrapper around `resultsDiff`
("Only compare columns that have the same name"), as an
exception-aware function. -/
def compareResults (fromResults toResults : RawResultSet) :
    Except String RawQueryCompareResult :=
  Except.ok (resultsDiff fromResults toResults)

/-- The fields of `CompletedLocalQueryInfo` the compare view reads.
`shortLabel` stands for `labelProvider.getShortLabel(item)`, an
external provider modelled as data. -/
structure CompletedLocalQueryInfo where
  resultsPath : String
  statusString : String
  startTime : String
  databaseUri : String
  shortLabel : String
  deriving Repr, DecidableEq

/-- `ComparePair`, exactly as declared in the source (`from`/`to` are
renamed `fromQuery`/`toQuery` because `from` is a Lean keyword). -/
structure ComparePair where
  fromQuery : CompletedLocalQueryInfo
  fromSchemas : BqrsInfo
  toQuery : CompletedLocalQueryInfo
  toSchemas : BqrsInfo
  commonResultSetNames : List String
  deriving Repr, DecidableEq

/-- The per-query stats block of a `setComparisonQueryInfo` message. -/
structure QueryStatsItem where
  name : String
  status : String
  time : String
  deriving Repr, DecidableEq

/-- The messages the compare view posts to the front-end
(`ToCompareViewMessage`), with the payloads the source constructs. -/
inductive ToCompareViewMessage where
  | setComparisonQueryInfo (fromQuery toQuery : QueryStatsItem)
      (databaseUri : String) (commonResultSetNames : List String)
  | setComparisons (result : Option RawQueryCompareResult)
      (currentResultSetName : String) (message : Option String)
  deriving Repr, DecidableEq

/-- `CompareView.findResultSetsToCompare`: chooses the result-set names
via `findResultSetNames` and fetches both result sets (either
`getResultSet` call may throw). -/
def findResultSetsToCompare
    (bqrsDecode : String → String → List (List String))
    (pair : ComparePair) (selectedResultSetName : Option String) :
    Except String (Option String × RawResultSet × RawResultSet) :=
  let names :=
    findResultSetNames pair.commonResultSetNames selectedResultSetName
  match getResultSet bqrsDecode pair.fromSchemas names.fromResultSetName
      pair.fromQuery.resultsPath with
  | Except.error e => Except.error e
  | Except.ok fromResultSet =>
    match getResultSet bqrsDecode pair.toSchemas names.toResultSetName
        pair.toQuery.resultsPath with
    | Except.error e => Except.error e
    | Except.ok toResultSet =>
      Except.ok (names.currentResultSetDisplayName, fromResultSet, toResultSet)

/-- `CompareView.showResultsInternal`: returns the messages posted.
Returns immediately (posting nothing) when no compare pair is set;
otherwise, when a truthy current result-set display name is found,
posts exactly one `setComparisons` message, catching any exception of
the diff (`this.compareResults`, passed here as `diff`) as the
message's `message` field with an undefined `result`. -/
def showResultsInternal
    (bqrsDecode : String → String → List (List String))
    (diff : RawResultSet → RawResultSet → Except String RawQueryCompareResult)
    (comparePair : Option ComparePair)
    (selectedResultSetName : Option String) :
    Except String (List ToCompareViewMessage) :=
  match comparePair with
  | none => Except.ok []
  | some pair =>
    match findResultSetsToCompare bqrsDecode pair selectedResultSetName with
    | Except.error e => Except.error e
    | Except.ok (currentResultSetDisplayName, fromResultSet, toResultSet) =>
      if truthyStr currentResultSetDisplayName then
        let outcome :=
          match diff fromResultSet toResultSet with
          | Except.ok result => (some result, (none : Option String))
          | Except.error e => (none, some e)
        Except.ok
          [ToCompareViewMessage.setComparisons outcome.1
            (currentResultSetDisplayName.getD "") outcome.2]
      else
        Except.ok []

/-- `CompareView.showResults`: computes both schemas and their common
result-set names, sets `comparePair`, posts the
`setComparisonQueryInfo` message and then runs `showResultsInternal`.
Returns the new `comparePair` and the messages posted. -/
def showResults (bqrsInfo : String → BqrsInfo)
    (bqrsDecode : String → String → List (List String))
    (diff : RawResultSet → RawResultSet → Except String RawQueryCompareResult)
    (fromQuery toQuery : CompletedLocalQueryInfo)
    (selectedResultSetName : Option String) :
    Except String (Option ComparePair × List ToCompareViewMessage) :=
  let fromSchemas := bqrsInfo fromQuery.resultsPath
  let toSchemas := bqrsInfo toQuery.resultsPath
  let commonResultSetNames := findCommonResultSetNames fromSchemas toSchemas
  let pair : ComparePair :=
    { fromQuery := fromQuery
      fromSchemas := fromSchemas
      toQuery := toQuery
      toSchemas := toSchemas
      commonResultSetNames := commonResultSetNames }
  let infoMsg :=
    ToCompareViewMessage.setComparisonQueryInfo
      { name := fromQuery.shortLabel
        status := fromQuery.statusString
        time := fromQuery.startTime }
      { name := toQuery.shortLabel
        status := toQuery.statusString
        time := toQuery.startTime }
      toQuery.databaseUri commonResultSetNames
  match showResultsInternal bqrsDecode diff (some pair) selectedResultSetName with
  | Except.error e => Except.error e
  | Except.ok msgs => Except.ok (some pair, infoMsg :: msgs)

/-- `CompareView.onPanelDispose`: clears `comparePair`. -/
def onPanelDispose (_comparePair : Option ComparePair) : Option ComparePair :=
  none

/-- `CompareView.changeTable` (the handler of a `changeCompare`
message): re-runs `showResultsInternal` with the new result-set
name. -/
def changeTable (bqrsDecode : String → String → List (List String))
    (diff : RawResultSet → RawResultSet → Except String RawQueryCompareResult)
    (comparePair : Option ComparePair) (newResultSetName : String) :
    Except String (List ToCompareViewMessage) :=
  showResultsInternal bqrsDecode diff comparePair (some newResultSetName)

end Compare

namespace Persist

/-!
Embedding of the manager's JSON persistence (`storeJsonFile` /
`retrieveJsonFile`).  The JavaScript runtime's `JSON.stringify(obj,
null, 2)` and `JSON.parse`, and the node file-system functions
`writeFile`/`readFile`, are not repository code; they are modelled
below.  Modelled from the spec: the spec promises no more than "write
JSON, read JSON later", so JSON values are modelled by the inductive
`Json` (with integer numbers — JavaScript number edge cases such as
non-integral floats are outside the model), `JSON.stringify(·, null,
2)` by a two-space pretty-printer and `JSON.parse` by a
whitespace-tolerant recursive-descent parser, and the file system by a
map from paths to file contents.
-/

/-- A JSON value: `null`, booleans, (integer) numbers, strings, arrays
and objects (ordered key-value lists, as JavaScript preserves insertion
order). -/
inductive Json where
  | null
  | bool (b : Bool)
  | num (n : Int)
  | str (s : String)
  | arr (items : List Json)
  | obj (members : List (String × Json))

/-- The `{` character. -/
def lbrace : Char := Char.ofNat 123

/-- The `}` character. -/
def rbrace : Char := Char.ofNat 125

/-- `JSON.stringify`'s escaping of one string character: quote,
backslash, the named control escapes, `\u00XX` for other control
characters, and everything else verbatim. -/
def escapeChar (c : Char) : List Char :=
  if c = '"' then ['\\', '"']
  else if c = '\\' then ['\\', '\\']
  else if c = '\n' then ['\\', 'n']
  else if c = '\r' then ['\\', 'r']
  else if c = '\t' then ['\\', 't']
  else if c.toNat = 8 then ['\\', 'b']
  else if c.toNat = 12 then ['\\', 'f']
  else if c.toNat < 32 then
    ['\\', 'u', '0', '0', Nat.digitChar (c.toNat / 16),
      Nat.digitChar (c.toNat % 16)]
  else [c]

/-- Escape every character of a string body. -/
def escapeList : List Char → List Char
  | [] => []
  | c :: cs => escapeChar c ++ escapeList cs

/-- A JSON string literal: quoted escaped body. -/
def quoteString (s : String) : List Char :=
  '"' :: escapeList s.data ++ ['"']

/-- The decimal digits of a natural number, most significant first. -/
def natDigits (n : Nat) : List Char :=
  if n < 10 then [Nat.digitChar n]
  else natDigits (n / 10) ++ [Nat.digitChar (n % 10)]
decreasing_by exact Nat.div_lt_self (by omega) (by omega)

/-- The decimal rendering of an integer. -/
def intChars (i : Int) : List Char :=
  if i < 0 then '-' :: natDigits i.natAbs else natDigits i.natAbs

/-- The two-space indentation of `JSON.stringify(·, null, 2)` at
nesting depth `d`. -/
def indentChars (d : Nat) : List Char := List.replicate (2 * d) ' '

mutual

/-- `JSON.stringify(·, null, 2)` on a value at nesting depth `d`:
empty arrays/objects print as `[]`/`{}`, non-empty ones put every
element on its own indented line. -/
def printJson (d : Nat) : Json → List Char
  | Json.null => ['n', 'u', 'l', 'l']
  | Json.bool b =>
    if b then ['t', 'r', 'u', 'e'] else ['f', 'a', 'l', 's', 'e']
  | Json.num i => intChars i
  | Json.str s => quoteString s
  | Json.arr [] => ['[', ']']
  | Json.arr (x :: xs) =>
    '[' :: '\n' ::
      (printItems (d + 1) (x :: xs) ++ '\n' :: (indentChars d ++ [']']))
  | Json.obj [] => [lbrace, rbrace]
  | Json.obj (kv :: kvs) =>
    lbrace :: '\n' ::
      (printMembers (d + 1) (kv :: kvs) ++ '\n' :: (indentChars d ++ [rbrace]))

/-- The comma-and-newline-separated, indented elements of a non-empty
array. -/
def printItems (d : Nat) : List Json → List Char
  | [] => []
  | [x] => indentChars d ++ printJson d x
  | x :: y :: ys =>
    indentChars d ++ printJson d x ++ ',' :: '\n' :: printItems d (y :: ys)

/-- The comma-and-newline-separated, indented `"key": value` members
of a non-empty object. -/
def printMembers (d : Nat) : List (String × Json) → List Char
  | [] => []
  | [(k, v)] => indentChars d ++ quoteString k ++ ':' :: ' ' :: printJson d v
  | (k, v) :: kv :: kvs =>
    indentChars d ++ quoteString k ++ ':' :: ' ' :: printJson d v ++
      ',' :: '\n' :: printMembers d (kv :: kvs)

end

/-- `JSON.stringify(obj, null, 2)`. -/
def stringify (j : Json) : String := String.mk (printJson 0 j)

/-- JSON whitespace. -/
def isWs (c : Char) : Bool :=
  c = ' ' || c = '\n' || c = '\r' || c = '\t'

/-- Drop leading JSON whitespace. -/
def skipWs : List Char → List Char
  | [] => []
  | c :: cs => if isWs c then skipWs cs else c :: cs

/-- The value of a hexadecimal digit. -/
def hexVal (c : Char) : Option Nat :=
  if '0' ≤ c ∧ c ≤ '9' then some (c.toNat - 48)
  else if 'a' ≤ c ∧ c ≤ 'f' then some (c.toNat - 87)
  else if 'A' ≤ c ∧ c ≤ 'F' then some (c.toNat - 55)
  else none

/-- The character denoted by a single-character string escape. -/
def escDecode (c : Char) : Option Char :=
  if c = '"' then some '"'
  else if c = '\\' then some '\\'
  else if c = '/' then some '/'
  else if c = 'b' then some (Char.ofNat 8)
  else if c = 'f' then some (Char.ofNat 12)
  else if c = 'n' then some '\n'
  else if c = 'r' then some '\r'
  else if c = 't' then some '\t'
  else none

/-- Parse a string body after the opening quote, up to and including
the closing quote; returns the decoded characters and the rest of the
input.  Unescaped control characters are rejected, as by
`JSON.parse`. -/
def parseStrBody : List Char → Option (List Char × List Char)
  | [] => none
  | c :: cs =>
    if c = '"' then some ([], cs)
    else if c = '\\' then
      match cs with
      | [] => none
      | e :: cs2 =>
        if e = 'u' then
          match cs2 with
          | h1 :: h2 :: h3 :: h4 :: cs3 =>
            match hexVal h1, hexVal h2, hexVal h3, hexVal h4 with
            | some a, some b, some c2, some d =>
              (parseStrBody cs3).map fun r =>
                (Char.ofNat (((a * 16 + b) * 16 + c2) * 16 + d) :: r.1, r.2)
            | _, _, _, _ => none
          | _ => none
        else
          match escDecode e with
          | some ch => (parseStrBody cs2).map fun r => (ch :: r.1, r.2)
          | none => none
    else if c.toNat < 32 then none
    else (parseStrBody cs).map fun r => (c :: r.1, r.2)

/-- Parse a run of decimal digits into an accumulator. -/
def parseDigits (acc : Nat) : List Char → Nat × List Char
  | [] => (acc, [])
  | c :: cs =>
    if c.isDigit then parseDigits (acc * 10 + (c.toNat - 48)) cs
    else (acc, c :: cs)

/-- Parse an optionally-signed decimal integer. -/
def parseNumber : List Char → Option (Int × List Char)
  | [] => none
  | c :: cs =>
    if c = '-' then
      match cs with
      | d :: _ =>
        if d.isDigit then
          let r := parseDigits 0 cs
          some (-(r.1 : Int), r.2)
        else none
      | [] => none
    else if c.isDigit then
      let r := parseDigits 0 (c :: cs)
      some ((r.1 : Int), r.2)
    else none

/-- Consume an expected literal tail. -/
def dropLit : List Char → List Char → Option (List Char)
  | [], cs => some cs
  | l :: ls, c :: cs => if c = l then dropLit ls cs else none
  | _ :: _, [] => none

mutual

/-- `JSON.parse`'s value parser (fuel-indexed; every recursive call
spends one unit).  Skips leading whitespace, then dispatches on the
first character. -/
def parseValue : Nat → List Char → Option (Json × List Char)
  | 0, _ => none
  | fuel + 1, input =>
    match skipWs input with
    | [] => none
    | c :: rest =>
      if c = '"' then
        (parseStrBody rest).map fun r => (Json.str (String.mk r.1), r.2)
      else if c = '[' then
        match skipWs rest with
        | ']' :: rest2 => some (Json.arr [], rest2)
        | _ => (parseItems fuel rest).map fun r => (Json.arr r.1, r.2)
      else if c = lbrace then
        match skipWs rest with
        | d :: rest2 =>
          if d = rbrace then some (Json.obj [], rest2)
          else (parseMembers fuel rest).map fun r => (Json.obj r.1, r.2)
        | [] => none
      else if c = 't' then
        (dropLit ['r', 'u', 'e'] rest).map fun r => (Json.bool true, r)
      else if c = 'f' then
        (dropLit ['a', 'l', 's', 'e'] rest).map fun r => (Json.bool false, r)
      else if c = 'n' then
        (dropLit ['u', 'l', 'l'] rest).map fun r => (Json.null, r)
      else
        (parseNumber (c :: rest)).map fun r => (Json.num r.1, r.2)

/-- Parse the elements of a non-empty array after the opening
bracket, up to and including the closing bracket. -/
def parseItems : Nat → List Char → Option (List Json × List Char)
  | 0, _ => none
  | fuel + 1, input =>
    match parseValue fuel input with
    | none => none
    | some (v, rest) =>
      match skipWs rest with
      | c :: rest2 =>
        if c = ',' then
          (parseItems fuel rest2).map fun r => (v :: r.1, r.2)
        else if c = ']' then some ([v], rest2)
        else none
      | [] => none

/-- Parse the members of a non-empty object after the opening brace,
up to and including the closing brace. -/
def parseMembers : Nat → List Char → Option (List (String × Json) × List Char)
  | 0, _ => none
  | fuel + 1, input =>
    match skipWs input with
    | c :: rest =>
      if c = '"' then
        match parseStrBody rest with
        | none => none
        | some (k, rest2) =>
          match skipWs rest2 with
          | d :: rest3 =>
            if d = ':' then
              match parseValue fuel rest3 with
              | none => none
              | some (v, rest4) =>
                match skipWs rest4 with
                | e :: rest5 =>
                  if e = ',' then
                    (parseMembers fuel rest5).map fun r =>
                      ((String.mk k, v) :: r.1, r.2)
                  else if e = rbrace then some ([(String.mk k, v)], rest5)
                  else none
                | [] => none
            else none
          | [] => none
      else none
    | [] => none

end

/-- `JSON.parse`: parse one value and require only whitespace after
it.  The fuel `length + 1` dominates the nesting of any value a string
of that length can denote. -/
def parse (s : String) : Option Json :=
  match parseValue (s.data.length + 1) s.data with
  | some (j, rest) => if (skipWs rest).isEmpty then some j else none
  | none => none

mutual

/-- Structural size of a JSON value: a lower bound on the fuel its
parse needs and on the length of its printing. -/
def jsize : Json → Nat
  | Json.null => 1
  | Json.bool _ => 1
  | Json.num _ => 1
  | Json.str _ => 1
  | Json.arr items => 1 + jsizeItems items
  | Json.obj members => 1 + jsizeMembers members

/-- Combined size of array elements. -/
def jsizeItems : List Json → Nat
  | [] => 1
  | x :: xs => 1 + jsize x + jsizeItems xs

/-- Combined size of object members. -/
def jsizeMembers : List (String × Json) → Nat
  | [] => 1
  | (_, v) :: kvs => 1 + jsize v + jsizeMembers kvs

end

/-- Whether a character list does not start with a decimal digit (so a
number parse cannot run into it). -/
def headNotDigit : List Char → Prop
  | [] => True
  | c :: _ => c.isDigit = false

/-- The file system: a map from absolute paths to file contents. -/
def FileSystem := String → Option String

/-- `fs-extra`'s `writeFile`: replace the contents at one path. -/
def writeFile (fs : FileSystem) (path contents : String) : FileSystem :=
  fun p => if p = path then some contents else fs p

/-- `fs-extra`'s `readFile`: the contents at a path, if any. -/
def readFile (fs : FileSystem) (path : String) : Option String := fs path

/-- `path.join(storagePath, queryId, fileName)` (POSIX separator). -/
def join3 (storagePath queryId fileName : String) : String :=
  storagePath ++ "/" ++ queryId ++ "/" ++ fileName

/-- `RemoteQueriesManager.storeJsonFile`: writes
`JSON.stringify(obj, null, 2)` to `join(storagePath, queryId,
fileName)`. -/
def storeJsonFile (storagePath : String) (fs : FileSystem)
    (queryId fileName : String) (obj : Json) : FileSystem :=
  writeFile fs (join3 storagePath queryId fileName) (stringify obj)

/-- `RemoteQueriesManager.retrieveJsonFile`: reads the file at
`join(storagePath, queryId, fileName)` and `JSON.parse`s it (`none`
models a thrown exception: missing file or invalid JSON). -/
def retrieveJsonFile (storagePath : String) (fs : FileSystem)
    (queryId fileName : String) : Option Json :=
  (readFile fs (join3 storagePath queryId fileName)).bind parse

end Persist

namespace Samples

/-! Concrete inputs used by the witness theorems. -/

/-- A sample download link. -/
def link : RemoteQueries.DownloadLink :=
  { id := "11", urlPath := "arts/11", innerFilePath := "results.sarif"
    queryId := "q1" }

/-- A sample analysis summary below the auto-download size limit. -/
def summarySmall : RemoteQueries.AnalysisSummary :=
  { nwo := "octo/small", databaseSha := "abc", resultCount := 3
    sourceLocationPrefix := "/src", fileSizeInBytes := 1024
    starCount := none, lastUpdated := none, downloadLink := link }

/-- A sample analysis summary at the auto-download size limit. -/
def summaryLarge : RemoteQueries.AnalysisSummary :=
  { nwo := "octo/large", databaseSha := "def", resultCount := 0
    sourceLocationPrefix := "/src", fileSizeInBytes := 300 * 1024
    starCount := none, lastUpdated := none, downloadLink := link }

/-- A sample remote query result. -/
def queryResult : RemoteQueries.RemoteQueryResult :=
  { executionEndTime := 7, analysisSummaries := [summarySmall, summaryLarge]
    analysisFailures := [], queryId := "q1" }

/-- A sample success item of a result index. -/
def successItem : RemoteQueries.SuccessIndexItem :=
  { nwo := "octo/small", sha := some "abc", resultCount := 3
    sourceLocationPrefix := "/src", sarifFileSize := some 1024
    bqrsFileSize := 2048, artifactId := 11 }

/-- A sample result index with one success and one failure. -/
def resultIndex : RemoteQueries.RemoteQueryResultIndex :=
  { artifactsUrlPath := "arts", successes := [successItem]
    failures := [{ nwo := "octo/broken", error := "oops" }] }

/-- An empty repositories-metadata map. -/
def noMetadata : RemoteQueries.RepositoriesMetadata := fun _ => none

/-- A sample completed local query (the `from` side). -/
def fromQuery : Compare.CompletedLocalQueryInfo :=
  { resultsPath := "p1", statusString := "completed", startTime := "t1"
    databaseUri := "db://one", shortLabel := "query one" }

/-- A sample completed local query (the `to` side). -/
def toQuery : Compare.CompletedLocalQueryInfo :=
  { resultsPath := "p2", statusString := "completed", startTime := "t2"
    databaseUri := "db://two", shortLabel := "query two" }

/-- Schemas of the `from` query: result sets `#select` and `edges`. -/
def fromSchemas : Compare.BqrsInfo :=
  { resultSets :=
      [{ name := "#select", columns := ["a", "b"] },
       { name := "edges", columns := ["x", "y"] }] }

/-- Schemas of the `to` query: result sets `edges` and `nodes`. -/
def toSchemas : Compare.BqrsInfo :=
  { resultSets :=
      [{ name := "edges", columns := ["y", "z"] },
       { name := "nodes", columns := ["n"] }] }

/-- A sample compare pair whose common result-set names are
`["edges"]`. -/
def pair : Compare.ComparePair :=
  { fromQuery := fromQuery, fromSchemas := fromSchemas
    toQuery := toQuery, toSchemas := toSchemas
    commonResultSetNames := ["edges"] }

/-- A sample decode map for the two results paths. -/
def decode : String → String → List (List String) := fun path _ =>
  if path = "p1" then [["1", "2"], ["3", "4"]] else [["5", "6"]]

/-- A sample `bqrsInfo` map for the two results paths. -/
def schemasOf : String → Compare.BqrsInfo := fun path =>
  if path = "p1" then fromSchemas else toSchemas

end Samples

open RemoteQueries Compare

/-- C1: for every `RemoteQueryResult`, `autoDownloadRemoteQueryResults`
selects for download exactly the analysis summaries whose
`fileSizeInBytes` is strictly below `300 * 1024` bytes, keeps at most
the first `100` of them in their original order, and maps each to a
descriptor preserving `nwo`, `databaseSha`, `resultCount`,
`sourceLocationPrefix` and `downloadLink`, with `fileSize` the decimal
string of `fileSizeInBytes`. -/
theorem claim_C1_autoDownload_selection
    (queryResult : RemoteQueryResult) :
    autoDownloadRemoteQueryResults queryResult =
      (((queryResult.analysisSummaries.filter
            fun a => a.fileSizeInBytes < 300 * 1024).take 100).map
        fun a =>
          { nwo := a.nwo
            databaseSha := a.databaseSha
            resultCount := a.resultCount
            sourceLocationPrefix := a.sourceLocationPrefix
            downloadLink := a.downloadLink
            fileSize := toString a.fileSizeInBytes }) ∧
    (autoDownloadRemoteQueryResults queryResult).length ≤ 100 ∧
    ∀ d ∈ autoDownloadRemoteQueryResults queryResult,
      ∃ a ∈ queryResult.analysisSummaries,
        a.fileSizeInBytes < 300 * 1024 ∧
        d.nwo = a.nwo ∧ d.databaseSha = a.databaseSha ∧
        d.resultCount = a.resultCount ∧
        d.sourceLocationPrefix = a.sourceLocationPrefix ∧
        d.downloadLink = a.downloadLink ∧
        d.fileSize = toString a.fileSizeInBytes := by
  refine ⟨rfl, ?_, ?_⟩
  · simp [autoDownloadRemoteQueryResults, autoDownloadMaxCount]
  · intro d hd
    simp only [autoDownloadRemoteQueryResults, List.mem_map] at hd
    obtain ⟨a, ha, rfl⟩ := hd
    have ha' := List.mem_of_mem_take ha
    rw [List.mem_filter] at ha'
    exact ⟨a, ha'.1, by simpa [autoDownloadMaxSize] using ha'.2,
      rfl, rfl, rfl, rfl, rfl, rfl⟩

/-- Witness for C1 at a concrete query result: the summary of size
`1024` is selected, the one of size `300 * 1024` is not. -/
theorem claim_C1_witness :
    ∃ a ∈ Samples.queryResult.analysisSummaries,
      a.fileSizeInBytes < 300 * 1024 ∧
      (Samples.summarySmall.nwo = a.nwo ∧
        Samples.summarySmall.databaseSha = a.databaseSha ∧
        Samples.summarySmall.resultCount = a.resultCount ∧
        Samples.summarySmall.sourceLocationPrefix = a.sourceLocationPrefix ∧
        Samples.summarySmall.downloadLink = a.downloadLink ∧
        "1024" = toString a.fileSizeInBytes) := by
  have h := (claim_C1_autoDownload_selection Samples.queryResult).2.2
    { nwo := Samples.summarySmall.nwo
      databaseSha := Samples.summarySmall.databaseSha
      resultCount := Samples.summarySmall.resultCount
      sourceLocationPrefix := Samples.summarySmall.sourceLocationPrefix
      downloadLink := Samples.summarySmall.downloadLink
      fileSize := "1024" }
    (by decide)
  obtain ⟨a, ha, hsize, h1, h2, h3, h4, h5, h6⟩ := h
  exact ⟨a, ha, hsize, h1, h2, h3, h4, h5, h6⟩

/-- C7: the data-transformation core is deterministic — the embedding
of `mapQueryResult` and of the filtering/slicing/mapping of
`autoDownloadRemoteQueryResults` is a pure function of the listed
inputs (the execution end time, result index, query id and repository
metadata, respectively the list of analysis summaries), so two runs on
equal inputs yield equal outputs. -/
theorem claim_C7_deterministic :
    (∀ (t : Int) (idx : RemoteQueryResultIndex) (qid : String)
        (md : RepositoriesMetadata),
      mapQueryResult t idx qid md = mapQueryResult t idx qid md) ∧
    (∀ qr : RemoteQueryResult,
      autoDownloadRemoteQueryResults qr = autoDownloadRemoteQueryResults qr) :=
  ⟨fun _ _ _ _ => rfl, fun _ => rfl⟩

/-- C4: after the monitored workflow completes,
`downloadAvailableResults` either (a) — when a result index is
available — fires one status-change event with status `Completed`,
`repositoryCount` the number of successful analyses of the index and
`resultCount` the sum of the per-analysis result counts, and persists
the mapped result as `query-result.json` under the query's storage
directory; or (b) — when no index is available — fires one `Failed`
event with no failure reason and writes nothing. -/
theorem claim_C4_downloadAvailableResults_outcomes
    (queryId : String) (executionEndTime : Int)
    (metadata : RepositoriesMetadata) :
    (∀ idx : RemoteQueryResultIndex,
      downloadAvailableResults queryId executionEndTime (some idx) metadata =
        { events :=
            [{ queryId := queryId
               status := QueryStatus.Completed
               failureReason := none
               repositoryCount := some idx.successes.length
               resultCount :=
                 some ((idx.successes.map
                   SuccessIndexItem.resultCount).sum) }]
          stored :=
            [(queryId, "query-result.json",
              mapQueryResult executionEndTime idx queryId metadata)]
          autoDownloads :=
            [mapQueryResult executionEndTime idx queryId metadata] }) ∧
    downloadAvailableResults queryId executionEndTime none metadata =
      { events :=
          [{ queryId := queryId
             status := QueryStatus.Failed
             failureReason := none
             repositoryCount := none
             resultCount := none }]
        stored := []
        autoDownloads := [] } := by
  refine ⟨fun idx => ?_, rfl⟩
  simp only [downloadAvailableResults, sumAnalysisSummariesResults,
    mapQueryResult, List.map_map, List.length_map]
  rfl

/-- C5: for every monitored query, if the workflow status is
`Cancelled`, or `CompletedUnsuccessfully` with an error containing
`"cancelled"`, `monitorRemoteQuery` fires a `Failed` event with
failure reason `"Cancelled"` first and still attempts the download of
available results; if the status is `CompletedUnsuccessfully` and the
error does not contain `"cancelled"`, it fires exactly one `Failed`
event whose failure reason is the workflow error and does not attempt
the download. -/
theorem claim_C5_monitor_cancellation
    (queryId : String) (workflowResult : RemoteQueryWorkflowResult)
    (executionEndTime : Int)
    (resultIndex : Option RemoteQueryResultIndex)
    (metadata : RepositoriesMetadata) :
    ((workflowResult.status = WorkflowStatus.Cancelled ∨
        (workflowResult.status = WorkflowStatus.CompletedUnsuccessfully ∧
          errorIncludesCancelled workflowResult.error = true)) →
      (monitorRemoteQuery queryId workflowResult executionEndTime
          resultIndex metadata).events.head? =
        some { queryId := queryId
               status := QueryStatus.Failed
               failureReason := some "Cancelled" } ∧
      (monitorRemoteQuery queryId workflowResult executionEndTime
          resultIndex metadata).downloadAttempted = true) ∧
    (workflowResult.status = WorkflowStatus.CompletedUnsuccessfully →
      errorIncludesCancelled workflowResult.error = false →
      (monitorRemoteQuery queryId workflowResult executionEndTime
          resultIndex metadata).events =
        [{ queryId := queryId
           status := QueryStatus.Failed
           failureReason := workflowResult.error }] ∧
      (monitorRemoteQuery queryId workflowResult executionEndTime
          resultIndex metadata).downloadAttempted = false) := by
  constructor
  · rintro (hst | ⟨hst, herr⟩)
    · simp [monitorRemoteQuery, hst]
    · simp [monitorRemoteQuery, hst, herr]
  · intro hst herr
    simp [monitorRemoteQuery, hst, herr]

/-- Witness for C5: a cancelled workflow and a genuinely failed
workflow, at concrete inputs. -/
theorem claim_C5_witness :
    ((monitorRemoteQuery "q1"
        { status := WorkflowStatus.CompletedUnsuccessfully
          error := some "run was cancelled by user" }
        7 none Samples.noMetadata).events.head? =
      some { queryId := "q1"
             status := QueryStatus.Failed
             failureReason := some "Cancelled" } ∧
     (monitorRemoteQuery "q1"
        { status := WorkflowStatus.CompletedUnsuccessfully
          error := some "run was cancelled by user" }
        7 none Samples.noMetadata).downloadAttempted = true) ∧
    ((monitorRemoteQuery "q1"
        { status := WorkflowStatus.CompletedUnsuccessfully
          error := some "out of disk" }
        7 none Samples.noMetadata).events =
      [{ queryId := "q1"
         status := QueryStatus.Failed
         failureReason := some "out of disk" }] ∧
     (monitorRemoteQuery "q1"
        { status := WorkflowStatus.CompletedUnsuccessfully
          error := some "out of disk" }
        7 none Samples.noMetadata).downloadAttempted = false) := by
  constructor
  · exact (claim_C5_monitor_cancellation "q1"
      { status := WorkflowStatus.CompletedUnsuccessfully
        error := some "run was cancelled by user" }
      7 none Samples.noMetadata).1 (Or.inr ⟨rfl, by decide⟩)
  · exact (claim_C5_monitor_cancellation "q1"
      { status := WorkflowStatus.CompletedUnsuccessfully
        error := some "out of disk" }
      7 none Samples.noMetadata).2 rfl (by decide)

/-- C10: whenever no compare pair is set — in particular right after
`onPanelDispose` cleared it — `showResultsInternal` returns
immediately without posting any message, so a `changeCompare` request
arriving after disposal (`changeTable`) posts nothing and leaves the
cleared pair cleared. -/
theorem claim_C10_disposed_noop :
    (∀ (bqrsDecode : String → String → List (List String))
        (diff : RawResultSet → RawResultSet →
          Except String RawQueryCompareResult)
        (selectedResultSetName : Option String),
      showResultsInternal bqrsDecode diff none selectedResultSetName =
        Except.ok []) ∧
    (∀ comparePair : Option ComparePair, onPanelDispose comparePair = none) ∧
    (∀ (bqrsDecode : String → String → List (List String))
        (diff : RawResultSet → RawResultSet →
          Except String RawQueryCompareResult)
        (comparePair : Option ComparePair) (newResultSetName : String),
      changeTable bqrsDecode diff (onPanelDispose comparePair)
        newResultSetName = Except.ok []) :=
  ⟨fun _ _ _ => rfl, fun _ => rfl, fun _ _ _ _ => rfl⟩

/-- C8: for every success item of the result index, `mapQueryResult`
produces (at the same position) a summary whose `databaseSha` is
`item.sha` when present and non-empty and `"HEAD"` otherwise, whose
`fileSizeInBytes` is `item.sarifFileSize` when truthy and
`item.bqrsFileSize` otherwise, whose download link's `innerFilePath`
is `results.sarif` exactly when `sarifFileSize` is truthy and
`results.bqrs` otherwise, and whose download link's `urlPath` is the
index's `artifactsUrlPath` followed by `/` and the item's
`artifactId`. -/
theorem claim_C8_mapQueryResult_item_fields
    (t : Int) (idx : RemoteQueryResultIndex) (qid : String)
    (md : RepositoriesMetadata) (i : Nat) (item : SuccessIndexItem)
    (h : idx.successes[i]? = some item) :
    ∃ s, (mapQueryResult t idx qid md).analysisSummaries[i]? = some s ∧
      (∀ sh, item.sha = some sh → sh ≠ "" → s.databaseSha = sh) ∧
      ((item.sha = none ∨ item.sha = some "") → s.databaseSha = "HEAD") ∧
      (∀ n, item.sarifFileSize = some n → n ≠ 0 →
        s.fileSizeInBytes = n ∧
        s.downloadLink.innerFilePath = "results.sarif") ∧
      ((item.sarifFileSize = none ∨ item.sarifFileSize = some 0) →
        s.fileSizeInBytes = item.bqrsFileSize ∧
        s.downloadLink.innerFilePath = "results.bqrs") ∧
      s.downloadLink.urlPath =
        idx.artifactsUrlPath ++ "/" ++ toString item.artifactId := by
  refine ⟨mapSuccessItem idx.artifactsUrlPath qid md item, ?_, ?_, ?_, ?_, ?_, rfl⟩
  · simp [mapQueryResult, List.getElem?_map, h]
  · intro sh hsha hne
    simp [mapSuccessItem, truthyStr, hsha, hne]
  · rintro (hsha | hsha) <;> simp [mapSuccessItem, truthyStr, hsha]
  · intro n hsarif hne
    refine ⟨?_, ?_⟩ <;> simp [mapSuccessItem, truthyNum, hsarif, hne]
  · rintro (hsarif | hsarif) <;>
      exact ⟨by simp [mapSuccessItem, truthyNum, hsarif],
        by simp [mapSuccessItem, truthyNum, hsarif]⟩

/-- Witness for C8 at a concrete index: the single success item with a
non-empty `sha` and a truthy `sarifFileSize`. -/
theorem claim_C8_witness :
    ∃ s, (mapQueryResult 7 Samples.resultIndex "q1"
        Samples.noMetadata).analysisSummaries[0]? = some s ∧
      (∀ sh, Samples.successItem.sha = some sh → sh ≠ "" →
        s.databaseSha = sh) ∧
      ((Samples.successItem.sha = none ∨
          Samples.successItem.sha = some "") → s.databaseSha = "HEAD") ∧
      (∀ n, Samples.successItem.sarifFileSize = some n → n ≠ 0 →
        s.fileSizeInBytes = n ∧
        s.downloadLink.innerFilePath = "results.sarif") ∧
      ((Samples.successItem.sarifFileSize = none ∨
          Samples.successItem.sarifFileSize = some 0) →
        s.fileSizeInBytes = Samples.successItem.bqrsFileSize ∧
        s.downloadLink.innerFilePath = "results.bqrs") ∧
      s.downloadLink.urlPath =
        Samples.resultIndex.artifactsUrlPath ++ "/" ++
          toString Samples.successItem.artifactId :=
  claim_C8_mapQueryResult_item_fields 7 Samples.resultIndex "q1"
    Samples.noMetadata 0 Samples.successItem (by decide)

/-- C9: `copyRemoteQueryRepoListToClipboard` writes to the clipboard if
and only if some analysis summary of the stored query result has a
positive `resultCount`; when it writes, the text is a
`"new-repo-list"` block listing exactly the `nwo` names of those
summaries in their original order, each entry except the last followed
by a comma; otherwise the clipboard is left unchanged. -/
theorem claim_C9_copyRepoList (qr : RemoteQueryResult)
    (eol clipboard : String) :
    ((copyRemoteQueryRepoListToClipboard qr eol).isSome ↔
        ∃ a ∈ qr.analysisSummaries, 0 < a.resultCount) ∧
    (copyRemoteQueryRepoListToClipboard qr eol = none →
        clipboardAfterCopy qr eol clipboard = clipboard) ∧
    ∀ t, copyRemoteQueryRepoListToClipboard qr eol = some t →
      clipboardAfterCopy qr eol clipboard = t ∧
      ∃ body : List String,
        t = String.intercalate eol
          (["\"new-repo-list\": ["] ++ body ++ ["]"]) ∧
        body.length = (repoNames qr).length ∧
        ∀ i, i < (repoNames qr).length →
          body[i]? =
            some ("    \"" ++ ((repoNames qr)[i]?.getD "") ++ "\"" ++
              (if i + 1 < (repoNames qr).length then "," else "")) := by
  have key : 0 < (repoNames qr).length ↔
      ∃ a ∈ qr.analysisSummaries, 0 < a.resultCount := by
    unfold repoNames
    rw [List.length_map, List.length_pos]
    constructor
    · intro h
      obtain ⟨a, ha⟩ := List.exists_mem_of_ne_nil _ h
      rw [List.mem_filter] at ha
      exact ⟨a, ha.1, by simpa using ha.2⟩
    · rintro ⟨a, ha, hpos⟩
      exact List.ne_nil_of_mem (List.mem_filter.mpr ⟨ha, by simpa using hpos⟩)
  refine ⟨?_, ?_, ?_⟩
  · constructor
    · intro hs
      apply key.mp
      by_contra hno
      simp [copyRemoteQueryRepoListToClipboard, hno] at hs
    · intro hex
      simp [copyRemoteQueryRepoListToClipboard, key.mpr hex]
  · intro h
    simp [clipboardAfterCopy, h]
  · intro t ht
    have hpos : 0 < (repoNames qr).length := by
      by_contra hno
      simp [copyRemoteQueryRepoListToClipboard, hno] at ht
    refine ⟨by simp [clipboardAfterCopy, ht], ?_⟩
    have ht' : t = String.intercalate eol
        (["\"new-repo-list\": ["] ++
          ((repoNames qr).dropLast.map fun repo => "    \"" ++ repo ++ "\",") ++
          ["    \"" ++ ((repoNames qr).getLast?.getD "") ++ "\""] ++ ["]"]) := by
      rw [copyRemoteQueryRepoListToClipboard] at ht
      simp only [hpos, if_pos] at ht
      simpa using ht.symm
    refine ⟨((repoNames qr).dropLast.map fun repo => "    \"" ++ repo ++ "\",") ++
        ["    \"" ++ ((repoNames qr).getLast?.getD "") ++ "\""], ?_, ?_, ?_⟩
    · rw [ht']
      simp [List.append_assoc]
    · simp only [List.length_append, List.length_map, List.length_dropLast,
        List.length_singleton]
      omega
    · intro i hi
      by_cases hlt : i < (repoNames qr).length - 1
      · rw [List.getElem?_append_left
          (by simpa [List.length_dropLast] using hlt)]
        have hi' : i < (repoNames qr).length := hi
        have hcomma : i + 1 < (repoNames qr).length := by omega
        simp only [List.getElem?_map, List.getElem?_dropLast, hlt, if_pos,
          List.getElem?_eq_getElem hi', Option.map_some', Option.getD_some,
          hcomma, String.append_assoc,
          show ("\"" : String) ++ "," = "\"," from rfl]
      · have hEq : i = (repoNames qr).length - 1 := by omega
        have hnot : ¬ i + 1 < (repoNames qr).length := by omega
        rw [List.getElem?_append_right
          (by simp [List.length_dropLast]; omega),
          if_neg hnot, String.append_empty]
        simp only [List.length_map, List.length_dropLast]
        have h0 : i - ((repoNames qr).length - 1) = 0 := by omega
        rw [h0]
        simp only [List.getElem?_cons_zero, Option.some.injEq]
        rw [List.getLast?_eq_getElem?, ← hEq]

/-- A truthy optional string is a non-empty present string. -/
theorem truthyStr_eq_true_iff (o : Option String) :
    truthyStr o = true ↔ ∃ s, o = some s ∧ s ≠ "" := by
  cases o with
  | none => simp [truthyStr]
  | some s => simp [truthyStr]

/-- `List.contains` on strings decides membership. -/
theorem contains_true_iff (l : List String) (a : String) :
    l.contains a = true ↔ a ∈ l := by
  simp [List.contains]

/-- The name chosen by the modelled `findResultSetNames` is always one
of the common result-set names. -/
theorem findResultSetNames_mem_common (common : List String)
    (sel : Option String) (n : String)
    (h : (Compare.findResultSetNames common sel).currentResultSetDisplayName =
      some n) :
    n ∈ common := by
  have hhead : ∀ m : String, common.head? = some m → m ∈ common := by
    intro m hm
    exact List.mem_of_mem_head? (by rw [hm]; rfl)
  cases sel with
  | none =>
    unfold Compare.findResultSetNames at h
    dsimp only at h
    exact hhead n h
  | some s =>
    unfold Compare.findResultSetNames at h
    dsimp only at h
    by_cases hc : common.contains s = true
    · rw [if_pos hc, Option.some.injEq] at h
      exact h ▸ (contains_true_iff common s).mp hc
    · rw [if_neg hc] at h
      exact hhead n h

/-- C3: the compare view diffs the two result tables by common column
names — `showResults` stores (and posts) as `commonResultSetNames`
exactly the result-set names common to both queries' schemas; any
`setComparisons` message posted by `showResultsInternal` is for a
commonly-named selection; and `compareResults` produces a comparison
whose columns all occur, by name, in both result sets. -/
theorem claim_C3_compare_by_common_names :
    (∀ (bqrsInfo : String → BqrsInfo)
        (bqrsDecode : String → String → List (List String))
        (diff : RawResultSet → RawResultSet →
          Except String RawQueryCompareResult)
        (fq tq : CompletedLocalQueryInfo) (sel : Option String)
        (pair : ComparePair) (msgs : List ToCompareViewMessage),
      showResults bqrsInfo bqrsDecode diff fq tq sel =
          Except.ok (some pair, msgs) →
        (∀ n, n ∈ pair.commonResultSetNames ↔
          n ∈ resultSetNamesOf (bqrsInfo fq.resultsPath) ∧
          n ∈ resultSetNamesOf (bqrsInfo tq.resultsPath)) ∧
        (∃ st1 st2 uri, msgs.head? = some
          (ToCompareViewMessage.setComparisonQueryInfo st1 st2 uri
            pair.commonResultSetNames))) ∧
    (∀ (bqrsDecode : String → String → List (List String))
        (pair : ComparePair) (sel : Option String)
        (msgs : List ToCompareViewMessage)
        (res : Option RawQueryCompareResult) (name : String)
        (m : Option String),
      showResultsInternal bqrsDecode compareResults (some pair) sel =
          Except.ok msgs →
        ToCompareViewMessage.setComparisons res name m ∈ msgs →
        name ∈ pair.commonResultSetNames) ∧
    (∀ (f t : RawResultSet) (r : RawQueryCompareResult),
      compareResults f t = Except.ok r →
        ∀ c ∈ r.columns, c ∈ f.columns ∧ c ∈ t.columns) := by
  refine ⟨?_, ?_, ?_⟩
  · intro bqrsInfo bqrsDecode diff fq tq sel pair msgs h
    unfold showResults at h
    dsimp only at h
    split at h
    · exact absurd h (by simp)
    · rw [Except.ok.injEq, Prod.mk.injEq] at h
      obtain ⟨hpair, hmsgs⟩ := h
      rw [Option.some.injEq] at hpair
      subst hpair
      subst hmsgs
      constructor
      · intro n
        simp only [findCommonResultSetNames, List.mem_filter,
          contains_true_iff]
      · exact ⟨_, _, _, rfl⟩
  · intro bqrsDecode pair sel msgs res name m h hm
    unfold showResultsInternal at h
    dsimp only at h
    rcases hfind : findResultSetsToCompare bqrsDecode pair sel with e | ⟨dn, frs, trs⟩
    · rw [hfind] at h
      exact absurd h (by simp)
    · rw [hfind] at h
      dsimp only at h
      by_cases htruthy : truthyStr dn = true
      · rw [if_pos htruthy] at h
        rw [Except.ok.injEq] at h
        subst h
        rw [List.mem_singleton] at hm
        obtain ⟨s, hdn, -⟩ := (truthyStr_eq_true_iff dn).mp htruthy
        subst hdn
        injection hm with h1 h2 h3
        subst h2
        unfold findResultSetsToCompare at hfind
        dsimp only at hfind
        rcases hg1 : getResultSet bqrsDecode pair.fromSchemas
            (findResultSetNames pair.commonResultSetNames
              sel).fromResultSetName pair.fromQuery.resultsPath with
          e1 | rs1
        · rw [hg1] at hfind
          exact absurd hfind (by simp)
        · rw [hg1] at hfind
          rcases hg2 : getResultSet bqrsDecode pair.toSchemas
              (findResultSetNames pair.commonResultSetNames
                sel).toResultSetName pair.toQuery.resultsPath with
            e2 | rs2
          · rw [hg2] at hfind
            exact absurd hfind (by simp)
          · rw [hg2] at hfind
            dsimp only at hfind
            rw [Except.ok.injEq, Prod.mk.injEq] at hfind
            exact findResultSetNames_mem_common pair.commonResultSetNames
              sel name hfind.1
      · rw [if_neg htruthy, Except.ok.injEq] at h
        subst h
        exact absurd hm (by simp)
  · intro f t r h
    rw [compareResults, Except.ok.injEq] at h
    subst h
    intro c hc
    rw [resultsDiff] at hc
    simp only [List.mem_filter, contains_true_iff] at hc
    exact hc

/-- Witness for C3 at concrete schemas: `edges` is the one common
result-set name and the one that gets diffed. -/
theorem claim_C3_witness :
    ("edges" ∈ Samples.pair.commonResultSetNames ↔
      "edges" ∈ resultSetNamesOf
          (Samples.schemasOf Samples.fromQuery.resultsPath) ∧
      "edges" ∈ resultSetNamesOf
          (Samples.schemasOf Samples.toQuery.resultsPath)) ∧
    "edges" ∈ Samples.pair.commonResultSetNames := by
  constructor
  · exact (claim_C3_compare_by_common_names.1 Samples.schemasOf
      Samples.decode compareResults Samples.fromQuery Samples.toQuery none
      Samples.pair
      [ToCompareViewMessage.setComparisonQueryInfo
        { name := "query one", status := "completed", time := "t1" }
        { name := "query two", status := "completed", time := "t2" }
        "db://two" ["edges"],
       ToCompareViewMessage.setComparisons
        (some { columns := ["y"], fromRows := [["2"], ["4"]]
                toRows := [["5"]] }) "edges" none]
      rfl).1 "edges"
  · exact claim_C3_compare_by_common_names.2.1 Samples.decode Samples.pair
      none
      [ToCompareViewMessage.setComparisons
        (some { columns := ["y"], fromRows := [["2"], ["4"]]
                toRows := [["5"]] }) "edges" none]
      (some { columns := ["y"], fromRows := [["2"], ["4"]]
              toRows := [["5"]] }) "edges" none
      rfl (by decide)

/-- C6: in `showResultsInternal`, whenever a (truthy) current
result-set display name is found, a `setComparisons` message is always
posted: when the diff succeeds it carries the result and no message,
and when the diff throws it carries the exception's message and an
undefined result instead of the failure propagating. -/
theorem claim_C6_setComparisons_always_posted
    (bqrsDecode : String → String → List (List String))
    (diff : RawResultSet → RawResultSet →
      Except String RawQueryCompareResult)
    (pair : ComparePair) (sel : Option String) (name : String)
    (fromResultSet toResultSet : RawResultSet)
    (hfind : findResultSetsToCompare bqrsDecode pair sel =
      Except.ok (some name, fromResultSet, toResultSet))
    (hname : name ≠ "") :
    (∀ r, diff fromResultSet toResultSet = Except.ok r →
      showResultsInternal bqrsDecode diff (some pair) sel =
        Except.ok
          [ToCompareViewMessage.setComparisons (some r) name none]) ∧
    (∀ e, diff fromResultSet toResultSet = Except.error e →
      showResultsInternal bqrsDecode diff (some pair) sel =
        Except.ok
          [ToCompareViewMessage.setComparisons none name (some e)]) := by
  have htruthy : truthyStr (some name) = true := by
    simp [truthyStr, hname]
  constructor
  · intro r hr
    unfold showResultsInternal
    dsimp only
    rw [hfind]
    dsimp only
    rw [if_pos htruthy, hr]
    rfl
  · intro e he
    unfold showResultsInternal
    dsimp only
    rw [hfind]
    dsimp only
    rw [if_pos htruthy, he]
    rfl

/-- Witness for C6 at a concrete pair and a diff that throws `boom`:
the failure is caught and posted as the message. -/
theorem claim_C6_witness :
    showResultsInternal Samples.decode
        (fun _ _ => Except.error "boom") (some Samples.pair) none =
      Except.ok
        [ToCompareViewMessage.setComparisons none "edges" (some "boom")] :=
  (claim_C6_setComparisons_always_posted Samples.decode
    (fun _ _ => Except.error "boom") Samples.pair none "edges"
    { columns := ["x", "y"], rows := [["1", "2"], ["3", "4"]] }
    { columns := ["y", "z"], rows := [["5", "6"]] }
    rfl (by decide)).2 "boom" rfl

/-- Witness for C9 at a concrete query result: one summary has
positive results, so its repository list is written. -/
theorem claim_C9_witness :
    clipboardAfterCopy Samples.queryResult "\n" "before" =
      "\"new-repo-list\": [\n    \"octo/small\"\n]" :=
  ((claim_C9_copyRepoList Samples.queryResult "\n" "before").2.2
    "\"new-repo-list\": [\n    \"octo/small\"\n]" (by decide)).1

namespace Persist

/-! Helper lemmas for the `JSON.parse`/`JSON.stringify` round-trip. -/

/-- `skipWs` keeps a non-whitespace head. -/
theorem skipWs_cons_of_not_ws {c : Char} (cs : List Char)
    (h : isWs c = false) : skipWs (c :: cs) = c :: cs := by
  simp [skipWs, h]

/-- `skipWs` drops leading spaces. -/
theorem skipWs_replicate_space (n : Nat) (cs : List Char) :
    skipWs (List.replicate n ' ' ++ cs) = skipWs cs := by
  induction n with
  | zero => rfl
  | succ k ih => simpa [List.replicate_succ, skipWs, isWs] using ih

/-- `skipWs` drops an indentation. -/
theorem skipWs_indent (d : Nat) (cs : List Char) :
    skipWs (indentChars d ++ cs) = skipWs cs :=
  skipWs_replicate_space (2 * d) cs

/-- `skipWs` drops a leading newline. -/
theorem skipWs_newline (cs : List Char) : skipWs ('\n' :: cs) = skipWs cs := by
  simp [skipWs, isWs]

/-- `skipWs` is idempotent. -/
theorem skipWs_idem (cs : List Char) : skipWs (skipWs cs) = skipWs cs := by
  induction cs with
  | nil => rfl
  | cons c cs ih =>
    by_cases h : isWs c = true
    · simpa [skipWs, h] using ih
    · simp only [Bool.not_eq_true] at h
      rw [skipWs_cons_of_not_ws cs h, skipWs_cons_of_not_ws cs h]

/-- Digit characters of digits below ten. -/
theorem digitChar_isDigit {k : Nat} (h : k < 10) :
    (Nat.digitChar k).isDigit = true := by
  interval_cases k <;> decide

/-- The code of a digit character. -/
theorem digitChar_toNat {k : Nat} (h : k < 10) :
    (Nat.digitChar k).toNat = k + 48 := by
  interval_cases k <;> decide

/-- `natDigits` starts with a digit. -/
theorem natDigits_head (n : Nat) :
    ∃ c cs, natDigits n = c :: cs ∧ c.isDigit = true := by
  induction n using Nat.strong_induction_on with
  | _ n ih =>
    rw [natDigits]
    by_cases h : n < 10
    · exact ⟨Nat.digitChar n, [], by rw [if_pos h], digitChar_isDigit h⟩
    · obtain ⟨c, cs, heq, hdig⟩ :=
        ih (n / 10) (Nat.div_lt_self (by omega) (by omega))
      exact ⟨c, cs ++ [Nat.digitChar (n % 10)],
        by rw [if_neg h, heq]; rfl, hdig⟩

/-- A digit character is not whitespace and not any of the JSON
delimiter or keyword-head characters. -/
theorem isDigit_facts {c : Char} (h : c.isDigit = true) :
    isWs c = false ∧ c ≠ '"' ∧ c ≠ '[' ∧ c ≠ lbrace ∧ c ≠ 't' ∧
      c ≠ 'f' ∧ c ≠ 'n' ∧ c ≠ '-' ∧ c ≠ ']' ∧ c ≠ rbrace ∧ c ≠ ',' ∧
      c ≠ ':' := by
  refine ⟨?_, ?_, ?_, ?_, ?_, ?_, ?_, ?_, ?_, ?_, ?_, ?_⟩
  · by_contra hws
    simp only [Bool.not_eq_false, isWs, Bool.or_eq_true, decide_eq_true_eq]
      at hws
    rcases hws with ((h1 | h1) | h1) | h1 <;> subst h1 <;>
      exact absurd h (by decide)
  all_goals intro heq; subst heq; exact absurd h (by decide)

/-- `parseDigits` stops at a non-digit. -/
theorem parseDigits_stop (acc : Nat) (cs : List Char)
    (h : headNotDigit cs) : parseDigits acc cs = (acc, cs) := by
  cases cs with
  | nil => rfl
  | cons c cs =>
    simp only [headNotDigit] at h
    simp [parseDigits, h]

/-- `parseDigits` consumes exactly the digits of `natDigits n`,
shifting the accumulator. -/
theorem parseDigits_natDigits_cont (n : Nat) :
    ∀ acc rest, parseDigits acc (natDigits n ++ rest) =
      parseDigits (acc * 10 ^ (natDigits n).length + n) rest := by
  induction n using Nat.strong_induction_on with
  | _ n ih =>
    intro acc rest
    rw [natDigits]
    by_cases h : n < 10
    · rw [if_pos h]
      simp only [List.singleton_append, List.length_singleton]
      rw [parseDigits]
      simp only [digitChar_isDigit h, if_pos]
      rw [digitChar_toNat h]
      congr 1
    · rw [if_neg h]
      have hlt : n / 10 < n := Nat.div_lt_self (by omega) (by omega)
      rw [List.append_assoc, ih (n / 10) hlt, List.singleton_append]
      rw [parseDigits]
      simp only [digitChar_isDigit (Nat.mod_lt n (by omega) : n % 10 < 10),
        if_pos]
      rw [digitChar_toNat (Nat.mod_lt n (by omega))]
      congr 1
      simp only [List.length_append, List.length_singleton]
      have hdm := Nat.div_add_mod n 10
      ring_nf
      omega

/-- Parsing the digits of `n` before a non-digit yields `n`. -/
theorem parseDigits_natDigits (n : Nat) (rest : List Char)
    (h : headNotDigit rest) :
    parseDigits 0 (natDigits n ++ rest) = (n, rest) := by
  rw [parseDigits_natDigits_cont, Nat.zero_mul, Nat.zero_add,
    parseDigits_stop n rest h]

/-- Parsing the rendering of an integer before a non-digit yields the
integer. -/
theorem parseNumber_intChars (i : Int) (rest : List Char)
    (h : headNotDigit rest) :
    parseNumber (intChars i ++ rest) = some (i, rest) := by
  obtain ⟨c, cs, heq, hdig⟩ := natDigits_head i.natAbs
  by_cases hneg : i < 0
  · rw [intChars, if_pos hneg, heq]
    simp only [List.cons_append]
    simp only [parseNumber, hdig, eq_self_iff_true, if_true]
    rw [← List.cons_append, ← heq, parseDigits_natDigits i.natAbs rest h]
    simp only [Option.some.injEq, Prod.mk.injEq, and_true]
    omega
  · rw [intChars, if_neg hneg, heq]
    simp only [List.cons_append]
    have hfacts := isDigit_facts hdig
    simp only [parseNumber, eq_false hfacts.2.2.2.2.2.2.2.1, if_false, hdig,
      eq_self_iff_true, if_true]
    rw [← List.cons_append, ← heq, parseDigits_natDigits i.natAbs rest h]
    simp only [Option.some.injEq, Prod.mk.injEq, and_true]
    omega

/-- `dropLit` consumes exactly its literal. -/
theorem dropLit_append (ls rest : List Char) :
    dropLit ls (ls ++ rest) = some rest := by
  induction ls with
  | nil => rfl
  | cons l ls ih => simp [dropLit, ih]

/-- `hexVal` inverts `Nat.digitChar` on hex digits. -/
theorem hexVal_digitChar {k : Nat} (h : k < 16) :
    hexVal (Nat.digitChar k) = some k := by
  interval_cases k <;> decide

/-- `parseStrBody` decodes an escaped string body up to its closing
quote. -/
theorem parseStrBody_escape (l : List Char) :
    ∀ rest, parseStrBody (escapeList l ++ '"' :: rest) = some (l, rest) := by
  induction l with
  | nil =>
    intro rest
    rw [escapeList, List.nil_append, parseStrBody.eq_def]
    simp
  | cons c cs ih =>
    intro rest
    rw [escapeList, List.append_assoc]
    by_cases h1 : c = '"'
    · subst h1
      rw [show escapeChar '"' = ['\\', '"'] from rfl]
      rw [List.cons_append, List.cons_append, parseStrBody.eq_def]
      simp [escDecode, ih]
    · by_cases h2 : c = '\\'
      · subst h2
        rw [show escapeChar '\\' = ['\\', '\\'] from rfl]
        rw [List.cons_append, List.cons_append, parseStrBody.eq_def]
        simp [escDecode, ih]
      · by_cases h3 : c = '\n'
        · subst h3
          rw [show escapeChar '\n' = ['\\', 'n'] from rfl]
          rw [List.cons_append, List.cons_append, parseStrBody.eq_def]
          simp [escDecode, ih]
        · by_cases h4 : c = '\r'
          · subst h4
            rw [show escapeChar '\r' = ['\\', 'r'] from rfl]
            rw [List.cons_append, List.cons_append, parseStrBody.eq_def]
            simp [escDecode, ih]
          · by_cases h5 : c = '\t'
            · subst h5
              rw [show escapeChar '\t' = ['\\', 't'] from rfl]
              rw [List.cons_append, List.cons_append, parseStrBody.eq_def]
              simp [escDecode, ih]
            · by_cases h6 : c.toNat = 8
              · have hc : Char.ofNat 8 = c := by
                  rw [← h6, Char.ofNat_toNat]
                rw [escapeChar, if_neg h1, if_neg h2, if_neg h3, if_neg h4,
                  if_neg h5, if_pos h6]
                rw [List.cons_append, List.cons_append, parseStrBody.eq_def]
                simp [escDecode, ih]
                exact hc
              · by_cases h7 : c.toNat = 12
                · have hc : Char.ofNat 12 = c := by
                    rw [← h7, Char.ofNat_toNat]
                  rw [escapeChar, if_neg h1, if_neg h2, if_neg h3, if_neg h4,
                    if_neg h5, if_neg h6, if_pos h7]
                  rw [List.cons_append, List.cons_append, parseStrBody.eq_def]
                  simp [escDecode, ih]
                  exact hc
                · by_cases h8 : c.toNat < 32
                  · rw [escapeChar, if_neg h1, if_neg h2, if_neg h3,
                      if_neg h4, if_neg h5, if_neg h6, if_neg h7, if_pos h8]
                    have e1 : hexVal '0' = some 0 := by decide
                    have e2 := hexVal_digitChar
                      (show c.toNat / 16 < 16 by omega)
                    have e3 := hexVal_digitChar
                      (show c.toNat % 16 < 16 by omega)
                    simp only [List.cons_append, List.nil_append]
                    rw [parseStrBody.eq_def]
                    simp only [e1, e2, e3]
                    have hchar :
                        Char.ofNat (c.toNat / 16 * 16 + c.toNat % 16) = c := by
                      rw [show c.toNat / 16 * 16 + c.toNat % 16 = c.toNat
                        by omega, Char.ofNat_toNat]
                    simp [ih]
                    exact hchar
                  · rw [escapeChar, if_neg h1, if_neg h2, if_neg h3,
                      if_neg h4, if_neg h5, if_neg h6, if_neg h7, if_neg h8]
                    rw [List.singleton_append, parseStrBody.eq_def]
                    simp [h1, h2, h8, ih]

/-- Every printed JSON value starts with a character that is neither
whitespace nor a closing delimiter. -/
theorem printJson_head (d : Nat) (j : Json) :
    ∃ c cs, printJson d j = c :: cs ∧ isWs c = false ∧ c ≠ ']' ∧
      c ≠ rbrace ∧ c ≠ ',' := by
  cases j with
  | null => exact ⟨'n', _, by rw [printJson], by decide, by decide,
      by decide, by decide⟩
  | bool b =>
    cases b with
    | true => exact ⟨'t', _, by rw [printJson]; rfl, by decide, by decide,
        by decide, by decide⟩
    | false => exact ⟨'f', _, by rw [printJson]; rfl, by decide, by decide,
        by decide, by decide⟩
  | num i =>
    obtain ⟨c, cs, heq, hdig⟩ := natDigits_head i.natAbs
    have hfacts := isDigit_facts hdig
    by_cases hneg : i < 0
    · exact ⟨'-', _, by rw [printJson, intChars, if_pos hneg], by decide,
        by decide, by decide, by decide⟩
    · exact ⟨c, cs, by rw [printJson, intChars, if_neg hneg, heq],
        hfacts.1, hfacts.2.2.2.2.2.2.2.2.1, hfacts.2.2.2.2.2.2.2.2.2.1,
        hfacts.2.2.2.2.2.2.2.2.2.2.1⟩
  | str s => exact ⟨'"', escapeList s.data ++ ['"'],
      by rw [printJson, quoteString]; simp, by decide, by decide, by decide,
      by decide⟩
  | arr items =>
    cases items with
    | nil => exact ⟨'[', _, by rw [printJson], by decide, by decide,
        by decide, by decide⟩
    | cons x xs => exact ⟨'[', _, by rw [printJson], by decide, by decide,
        by decide, by decide⟩
  | obj members =>
    cases members with
    | nil => exact ⟨lbrace, _, by rw [printJson], by decide, by decide,
        by decide, by decide⟩
    | cons kv kvs => exact ⟨lbrace, _, by rw [printJson], by decide,
        by decide, by decide, by decide⟩

/-- Leading whitespace before a printed value is exactly what `skipWs`
removes. -/
theorem skipWs_printJson (d : Nat) (j : Json) (rest : List Char) :
    skipWs (printJson d j ++ rest) = printJson d j ++ rest := by
  obtain ⟨c, cs, heq, hws, -, -, -⟩ := printJson_head d j
  rw [heq, List.cons_append, skipWs_cons_of_not_ws _ hws]

/-- `parseValue` only looks at its input through `skipWs`. -/
theorem parseValue_congr (fuel : Nat) {i1 i2 : List Char}
    (h : skipWs i1 = skipWs i2) : parseValue fuel i1 = parseValue fuel i2 := by
  cases fuel with
  | zero => rfl
  | succ m =>
    simp only [parseValue]
    rw [h]

/-- `parseItems` only looks at its input through `skipWs`. -/
theorem parseItems_congr (fuel : Nat) {i1 i2 : List Char}
    (h : skipWs i1 = skipWs i2) : parseItems fuel i1 = parseItems fuel i2 := by
  cases fuel with
  | zero => rfl
  | succ m =>
    simp only [parseItems]
    rw [parseValue_congr m h]

/-- `parseMembers` only looks at its input through `skipWs`. -/
theorem parseMembers_congr (fuel : Nat) {i1 i2 : List Char}
    (h : skipWs i1 = skipWs i2) :
    parseMembers fuel i1 = parseMembers fuel i2 := by
  cases fuel with
  | zero => rfl
  | succ m =>
    simp only [parseMembers]
    rw [h]

/-- Every JSON value has positive size. -/
theorem jsize_pos (j : Json) : 1 ≤ jsize j := by
  cases j <;> simp [jsize]

/-- Element lists have positive size. -/
theorem jsizeItems_pos (items : List Json) : 1 ≤ jsizeItems items := by
  cases items with
  | nil => simp [jsizeItems]
  | cons x xs =>
    simp [jsizeItems]
    omega

/-- Member lists have positive size. -/
theorem jsizeMembers_pos (members : List (String × Json)) :
    1 ≤ jsizeMembers members := by
  cases members with
  | nil => simp [jsizeMembers]
  | cons kv kvs =>
    obtain ⟨k, v⟩ := kv
    simp [jsizeMembers]
    omega

/-- The size of a value bounds the length of its printing (up to the
slack `3` for element/member lists). -/
theorem jsize_le_printJson (fuel : Nat) :
    (∀ j d, jsize j ≤ fuel → jsize j ≤ (printJson d j).length) ∧
    (∀ items d, jsizeItems items ≤ fuel →
      jsizeItems items ≤ (printItems d items).length + 3) ∧
    (∀ members d, jsizeMembers members ≤ fuel →
      jsizeMembers members ≤ (printMembers d members).length + 3) := by
  induction fuel with
  | zero =>
    refine ⟨fun j d h => absurd h ?_, fun items d h => absurd h ?_,
      fun members d h => absurd h ?_⟩
    · have := jsize_pos j
      omega
    · have := jsizeItems_pos items
      omega
    · have := jsizeMembers_pos members
      omega
  | succ m ih =>
    obtain ⟨ihv, ihi, ihm⟩ := ih
    refine ⟨?_, ?_, ?_⟩
    · intro j d h
      cases j with
      | null => simp [jsize, printJson]
      | bool b => cases b <;> simp [jsize, printJson]
      | num i =>
        obtain ⟨c, cs, heq, -⟩ := natDigits_head i.natAbs
        rw [jsize, printJson, intChars]
        by_cases hneg : i < 0 <;> simp [hneg, heq]
      | str s =>
        rw [jsize, printJson, quoteString]
        simp
      | arr items =>
        cases items with
        | nil => simp [jsize, jsizeItems, printJson]
        | cons x xs =>
          rw [jsize, printJson]
          have hJI : jsizeItems (x :: xs) ≤ m := by
            rw [jsize] at h
            omega
          have := ihi (x :: xs) (d + 1) hJI
          simp only [List.length_cons, List.length_append,
            indentChars, List.length_replicate, List.length_singleton]
          omega
      | obj members =>
        cases members with
        | nil => simp [jsize, jsizeMembers, printJson]
        | cons kv kvs =>
          rw [jsize, printJson]
          have hJM : jsizeMembers (kv :: kvs) ≤ m := by
            rw [jsize] at h
            omega
          have := ihm (kv :: kvs) (d + 1) hJM
          simp only [List.length_cons, List.length_append,
            indentChars, List.length_replicate, List.length_singleton]
          omega
    · intro items d h
      cases items with
      | nil => simp [jsizeItems]
      | cons x xs =>
        cases xs with
        | nil =>
          rw [jsizeItems, jsizeItems, printItems]
          have hx : jsize x ≤ m := by
            rw [jsizeItems, jsizeItems] at h
            omega
          have := ihv x d hx
          simp only [List.length_append, indentChars, List.length_replicate]
          omega
        | cons y ys =>
          rw [jsizeItems, printItems]
          have hx : jsize x ≤ m := by
            rw [jsizeItems] at h
            have := jsizeItems_pos (y :: ys)
            omega
          have hys : jsizeItems (y :: ys) ≤ m := by
            rw [jsizeItems] at h
            have := jsize_pos x
            omega
          have h1 := ihv x d hx
          have h2 := ihi (y :: ys) d hys
          simp only [List.length_append, indentChars, List.length_replicate,
            List.length_cons]
          omega
    · intro members d h
      cases members with
      | nil => simp [jsizeMembers]
      | cons kv kvs =>
        obtain ⟨k, v⟩ := kv
        cases kvs with
        | nil =>
          rw [jsizeMembers, jsizeMembers, printMembers]
          have hv : jsize v ≤ m := by
            rw [jsizeMembers, jsizeMembers] at h
            omega
          have := ihv v d hv
          simp only [List.length_append, indentChars, List.length_replicate,
            List.length_cons, quoteString]
          omega
        | cons kv2 kvs2 =>
          rw [jsizeMembers, printMembers]
          have hv : jsize v ≤ m := by
            rw [jsizeMembers] at h
            have := jsizeMembers_pos (kv2 :: kvs2)
            omega
          have hkvs : jsizeMembers (kv2 :: kvs2) ≤ m := by
            rw [jsizeMembers] at h
            have := jsize_pos v
            omega
          have h1 := ihv v d hv
          have h2 := ihm (kv2 :: kvs2) d hkvs
          simp only [List.length_append, indentChars, List.length_replicate,
            List.length_cons, quoteString]
          omega

/-- `parseValue` on a quote: a string literal. -/
theorem parseValue_succ_quote (fuel : Nat) (cs : List Char) :
    parseValue (fuel + 1) ('"' :: cs) =
      (parseStrBody cs).map fun r => (Json.str (String.mk r.1), r.2) := by
  simp only [parseValue]
  rw [skipWs_cons_of_not_ws _ (by decide)]
  simp

/-- `parseValue` on `t`: the `true` literal. -/
theorem parseValue_succ_t (fuel : Nat) (cs : List Char) :
    parseValue (fuel + 1) ('t' :: cs) =
      (dropLit ['r', 'u', 'e'] cs).map fun r => (Json.bool true, r) := by
  simp only [parseValue]
  rw [skipWs_cons_of_not_ws _ (by decide)]
  simp [lbrace]

/-- `parseValue` on `f`: the `false` literal. -/
theorem parseValue_succ_f (fuel : Nat) (cs : List Char) :
    parseValue (fuel + 1) ('f' :: cs) =
      (dropLit ['a', 'l', 's', 'e'] cs).map fun r => (Json.bool false, r) := by
  simp only [parseValue]
  rw [skipWs_cons_of_not_ws _ (by decide)]
  simp [lbrace]

/-- `parseValue` on `n`: the `null` literal. -/
theorem parseValue_succ_n (fuel : Nat) (cs : List Char) :
    parseValue (fuel + 1) ('n' :: cs) =
      (dropLit ['u', 'l', 'l'] cs).map fun r => (Json.null, r) := by
  simp only [parseValue]
  rw [skipWs_cons_of_not_ws _ (by decide)]
  simp [lbrace]

/-- `parseValue` on an opening bracket: an array. -/
theorem parseValue_succ_lbracket (fuel : Nat) (cs : List Char) :
    parseValue (fuel + 1) ('[' :: cs) =
      (match skipWs cs with
       | ']' :: rest2 => some (Json.arr [], rest2)
       | _ => (parseItems fuel cs).map fun r => (Json.arr r.1, r.2)) := by
  simp only [parseValue]
  rw [skipWs_cons_of_not_ws _ (by decide)]
  simp

/-- `parseValue` on an opening brace: an object. -/
theorem parseValue_succ_lbrace (fuel : Nat) (cs : List Char) :
    parseValue (fuel + 1) (lbrace :: cs) =
      (match skipWs cs with
       | d :: rest2 =>
         if d = rbrace then some (Json.obj [], rest2)
         else (parseMembers fuel cs).map fun r => (Json.obj r.1, r.2)
       | [] => none) := by
  simp only [parseValue]
  rw [skipWs_cons_of_not_ws _ (by decide)]
  simp [lbrace]

/-- `parseValue` on any other non-whitespace character: a number. -/
theorem parseValue_succ_num (fuel : Nat) (c : Char) (cs : List Char)
    (hws : isWs c = false) (h1 : c ≠ '"') (h2 : c ≠ '[') (h3 : c ≠ lbrace)
    (h4 : c ≠ 't') (h5 : c ≠ 'f') (h6 : c ≠ 'n') :
    parseValue (fuel + 1) (c :: cs) =
      (parseNumber (c :: cs)).map fun r => (Json.num r.1, r.2) := by
  simp only [parseValue]
  rw [skipWs_cons_of_not_ws _ hws]
  simp [h1, h2, h3, h4, h5, h6]

/-- After whitespace, a printed non-empty element list starts with a
character that closes nothing. -/
theorem skipWs_printItems_head (d : Nat) (x : Json) (xs : List Json)
    (R : List Char) :
    ∃ c tail, skipWs (printItems d (x :: xs) ++ R) = c :: tail ∧
      c ≠ ']' ∧ c ≠ rbrace := by
  obtain ⟨c, cs, heq, hws, hb, hbr, -⟩ := printJson_head d x
  cases xs with
  | nil =>
    refine ⟨c, cs ++ R, ?_, hb, hbr⟩
    rw [printItems, List.append_assoc, skipWs_indent, heq, List.cons_append,
      skipWs_cons_of_not_ws _ hws]
  | cons y ys =>
    obtain ⟨tail, htail⟩ :
        ∃ tail, skipWs (printItems d (x :: y :: ys) ++ R) = c :: tail := by
      rw [printItems]
      simp only [List.append_assoc]
      rw [skipWs_indent, heq]
      simp only [List.cons_append]
      rw [skipWs_cons_of_not_ws _ hws]
      exact ⟨_, rfl⟩
    exact ⟨c, tail, htail, hb, hbr⟩

/-- After whitespace, a printed non-empty member list starts with the
key's opening quote. -/
theorem skipWs_printMembers_head (d : Nat) (kv : String × Json)
    (kvs : List (String × Json)) (R : List Char) :
    ∃ tail, skipWs (printMembers d (kv :: kvs) ++ R) = '"' :: tail := by
  obtain ⟨k, v⟩ := kv
  cases kvs with
  | nil =>
    obtain ⟨tail, htail⟩ :
        ∃ tail, skipWs (printMembers d ((k, v) :: []) ++ R) = '"' :: tail := by
      rw [printMembers, quoteString]
      simp only [List.append_assoc, List.cons_append]
      rw [skipWs_indent, skipWs_cons_of_not_ws _ (by decide)]
      exact ⟨_, rfl⟩
    exact ⟨tail, htail⟩
  | cons kv2 kvs2 =>
    obtain ⟨tail, htail⟩ :
        ∃ tail, skipWs (printMembers d ((k, v) :: kv2 :: kvs2) ++ R) =
          '"' :: tail := by
      rw [printMembers, quoteString]
      simp only [List.append_assoc, List.cons_append]
      rw [skipWs_indent, skipWs_cons_of_not_ws _ (by decide)]
      exact ⟨_, rfl⟩
    exact ⟨tail, htail⟩

/-- A list headed by a non-digit character satisfies `headNotDigit`. -/
theorem headNotDigit_cons (c : Char) (h : c.isDigit = false)
    (cs : List Char) : headNotDigit (c :: cs) := h

/-- The central round-trip: a printed value parses back to itself,
with enough fuel, before any non-digit delimiter; likewise the printed
element and member lists up to their closing delimiter. -/
theorem parse_printJson (fuel : Nat) :
    (∀ j d rest, jsize j ≤ fuel → headNotDigit rest →
      parseValue fuel (printJson d j ++ rest) = some (j, rest)) ∧
    (∀ items di dc rest, items ≠ [] → jsizeItems items ≤ fuel →
      parseItems fuel
          (printItems di items ++ '\n' :: (indentChars dc ++ ']' :: rest)) =
        some (items, rest)) ∧
    (∀ members di dc rest, members ≠ [] → jsizeMembers members ≤ fuel →
      parseMembers fuel
          (printMembers di members ++
            '\n' :: (indentChars dc ++ rbrace :: rest)) =
        some (members, rest)) := by
  induction fuel with
  | zero =>
    refine ⟨fun j d rest h1 h2 => absurd h1 ?_,
      fun items di dc rest hne h1 => absurd h1 ?_,
      fun members di dc rest hne h1 => absurd h1 ?_⟩
    · have := jsize_pos j
      omega
    · have := jsizeItems_pos items
      omega
    · have := jsizeMembers_pos members
      omega
  | succ m ih =>
    obtain ⟨ihv, ihi, ihm⟩ := ih
    refine ⟨?_, ?_, ?_⟩
    · -- parseValue
      intro j d rest hsize hnd
      cases j with
      | null =>
        rw [printJson]
        simp only [List.cons_append, List.nil_append]
        rw [parseValue_succ_n,
          show 'u' :: 'l' :: 'l' :: rest = ['u', 'l', 'l'] ++ rest from rfl,
          dropLit_append]
        rfl
      | bool b =>
        cases b with
        | true =>
          rw [printJson]
          rw [if_pos rfl]
          simp only [List.cons_append, List.nil_append]
          rw [parseValue_succ_t,
            show 'r' :: 'u' :: 'e' :: rest = ['r', 'u', 'e'] ++ rest from rfl,
            dropLit_append]
          rfl
        | false =>
          rw [printJson]
          rw [if_neg (by decide)]
          simp only [List.cons_append, List.nil_append]
          rw [parseValue_succ_f,
            show 'a' :: 'l' :: 's' :: 'e' :: rest =
              ['a', 'l', 's', 'e'] ++ rest from rfl,
            dropLit_append]
          rfl
      | num i =>
        rw [printJson]
        by_cases hneg : i < 0
        · rw [intChars, if_pos hneg]
          simp only [List.cons_append]
          rw [parseValue_succ_num m '-' _ (by decide) (by decide) (by decide)
            (by decide) (by decide) (by decide) (by decide)]
          rw [show '-' :: (natDigits i.natAbs ++ rest) = intChars i ++ rest by
            rw [intChars, if_pos hneg]; rfl]
          rw [parseNumber_intChars i rest hnd]
          rfl
        · obtain ⟨c, cs, heq, hdig⟩ := natDigits_head i.natAbs
          have hf := isDigit_facts hdig
          rw [intChars, if_neg hneg, heq]
          simp only [List.cons_append]
          rw [parseValue_succ_num m c _ hf.1 hf.2.1 hf.2.2.1 hf.2.2.2.1
            hf.2.2.2.2.1 hf.2.2.2.2.2.1 hf.2.2.2.2.2.2.1]
          rw [show c :: (cs ++ rest) = intChars i ++ rest by
            rw [intChars, if_neg hneg, heq]; rfl]
          rw [parseNumber_intChars i rest hnd]
          rfl
      | str s =>
        rw [printJson, quoteString]
        simp only [List.cons_append, List.append_assoc,
          List.singleton_append, List.nil_append]
        rw [parseValue_succ_quote, parseStrBody_escape s.data rest]
        rfl
      | arr items =>
        cases items with
        | nil =>
          rw [printJson]
          simp only [List.cons_append, List.nil_append]
          rw [parseValue_succ_lbracket,
            skipWs_cons_of_not_ws _ (by decide : isWs ']' = false)]
          rfl
        | cons x xs =>
          rw [printJson]
          simp only [List.cons_append, List.append_assoc,
            List.singleton_append, List.nil_append]
          rw [parseValue_succ_lbracket]
          obtain ⟨c, tail, hskip, hnb, hnbr⟩ :=
            skipWs_printItems_head (d + 1) x xs
              ('\n' :: (indentChars d ++ ']' :: rest))
          rw [skipWs_newline, hskip]
          split
          · rename_i rest2 heq
            injection heq with hch htl
            exact absurd hch hnb
          · have hsz : jsizeItems (x :: xs) ≤ m := by
              rw [jsize] at hsize
              omega
            rw [parseItems_congr m (skipWs_newline _),
              ihi (x :: xs) (d + 1) d rest (by simp) hsz]
            rfl
      | obj members =>
        cases members with
        | nil =>
          rw [printJson]
          simp only [List.cons_append, List.nil_append]
          rw [parseValue_succ_lbrace,
            skipWs_cons_of_not_ws _ (by decide : isWs rbrace = false)]
          simp
        | cons kv kvs =>
          rw [printJson]
          simp only [List.cons_append, List.append_assoc,
            List.singleton_append, List.nil_append]
          rw [parseValue_succ_lbrace]
          obtain ⟨tail, hskip⟩ :=
            skipWs_printMembers_head (d + 1) kv kvs
              ('\n' :: (indentChars d ++ rbrace :: rest))
          rw [skipWs_newline, hskip]
          split
          · rename_i d1 rest2 heq
            injection heq with hch htl
            subst hch
            subst htl
            rw [if_neg (by decide)]
            have hsz : jsizeMembers (kv :: kvs) ≤ m := by
              rw [jsize] at hsize
              omega
            rw [parseMembers_congr m (skipWs_newline _),
              ihm (kv :: kvs) (d + 1) d rest (by simp) hsz]
            rfl
          · rename_i heq
            exact absurd heq (by simp)
    · -- parseItems
      intro items di dc rest hne hsize
      cases items with
      | nil => exact absurd rfl hne
      | cons x xs =>
        have hx : jsize x ≤ m := by
          rw [jsizeItems] at hsize
          have := jsizeItems_pos xs
          omega
        cases xs with
        | nil =>
          rw [printItems]
          simp only [List.append_assoc]
          have hval : parseValue m (indentChars di ++
              (printJson di x ++ '\n' :: (indentChars dc ++ ']' :: rest))) =
              some (x, '\n' :: (indentChars dc ++ ']' :: rest)) := by
            rw [parseValue_congr m (skipWs_indent di _)]
            exact ihv x di _ hx (headNotDigit_cons '\n' (by decide) _)
          simp only [parseItems, hval]
          rw [skipWs_newline, skipWs_indent,
            skipWs_cons_of_not_ws _ (by decide : isWs ']' = false)]
          simp
        | cons y ys =>
          have hys : jsizeItems (y :: ys) ≤ m := by
            rw [jsizeItems] at hsize
            have := jsize_pos x
            omega
          rw [printItems]
          simp only [List.append_assoc, List.cons_append]
          have hval : parseValue m (indentChars di ++
              (printJson di x ++ ',' :: '\n' ::
                (printItems di (y :: ys) ++
                  '\n' :: (indentChars dc ++ ']' :: rest)))) =
              some (x, ',' :: '\n' ::
                (printItems di (y :: ys) ++
                  '\n' :: (indentChars dc ++ ']' :: rest))) := by
            rw [parseValue_congr m (skipWs_indent di _)]
            exact ihv x di _ hx (headNotDigit_cons ',' (by decide) _)
          simp only [parseItems, hval]
          rw [skipWs_cons_of_not_ws _ (by decide : isWs ',' = false)]
          simp only [reduceIte]
          rw [parseItems_congr m (skipWs_newline _),
            ihi (y :: ys) di dc rest (by simp) hys]
          simp
    · -- parseMembers
      intro members di dc rest hne hsize
      cases members with
      | nil => exact absurd rfl hne
      | cons kv kvs =>
        obtain ⟨k, v⟩ := kv
        have hjv : jsize v ≤ m := by
          rw [jsizeMembers] at hsize
          have := jsizeMembers_pos kvs
          omega
        cases kvs with
        | nil =>
          rw [printMembers, quoteString]
          simp only [List.append_assoc, List.cons_append,
            List.singleton_append, List.nil_append]
          have hval : parseValue m (' ' ::
              (printJson di v ++ '\n' ::
                (indentChars dc ++ rbrace :: rest))) =
              some (v, '\n' :: (indentChars dc ++ rbrace :: rest)) := by
            rw [parseValue_congr m
              (show skipWs (' ' :: (printJson di v ++ '\n' ::
                  (indentChars dc ++ rbrace :: rest))) =
                skipWs (printJson di v ++ '\n' ::
                  (indentChars dc ++ rbrace :: rest)) by
                simp [skipWs, isWs])]
            exact ihv v di _ hjv (headNotDigit_cons '\n' (by decide) _)
          simp only [parseMembers]
          rw [skipWs_indent,
            skipWs_cons_of_not_ws _ (by decide : isWs '"' = false)]
          simp only [reduceIte, parseStrBody_escape]
          rw [skipWs_cons_of_not_ws _ (by decide : isWs ':' = false)]
          simp only [reduceIte, hval]
          rw [skipWs_newline, skipWs_indent,
            skipWs_cons_of_not_ws _ (by decide : isWs rbrace = false)]
          simp only [eq_false (by decide : rbrace ≠ ','), if_false,
            eq_true (rfl : rbrace = rbrace), if_true]
        | cons kv2 kvs2 =>
          have hkvs : jsizeMembers (kv2 :: kvs2) ≤ m := by
            rw [jsizeMembers] at hsize
            have := jsize_pos v
            omega
          rw [printMembers, quoteString]
          simp only [List.append_assoc, List.cons_append,
            List.singleton_append, List.nil_append]
          have hval : parseValue m (' ' ::
              (printJson di v ++ ',' :: '\n' ::
                (printMembers di (kv2 :: kvs2) ++
                  '\n' :: (indentChars dc ++ rbrace :: rest)))) =
              some (v, ',' :: '\n' ::
                (printMembers di (kv2 :: kvs2) ++
                  '\n' :: (indentChars dc ++ rbrace :: rest))) := by
            rw [parseValue_congr m
              (show skipWs (' ' :: (printJson di v ++ ',' :: '\n' ::
                  (printMembers di (kv2 :: kvs2) ++
                    '\n' :: (indentChars dc ++ rbrace :: rest)))) =
                skipWs (printJson di v ++ ',' :: '\n' ::
                  (printMembers di (kv2 :: kvs2) ++
                    '\n' :: (indentChars dc ++ rbrace :: rest))) by
                simp [skipWs, isWs])]
            exact ihv v di _ hjv (headNotDigit_cons ',' (by decide) _)
          simp only [parseMembers]
          rw [skipWs_indent,
            skipWs_cons_of_not_ws _ (by decide : isWs '"' = false)]
          simp only [reduceIte, parseStrBody_escape]
          rw [skipWs_cons_of_not_ws _ (by decide : isWs ':' = false)]
          simp only [reduceIte, hval]
          rw [skipWs_cons_of_not_ws _ (by decide : isWs ',' = false)]
          simp only [reduceIte]
          rw [parseMembers_congr m (skipWs_newline _),
            ihm (kv2 :: kvs2) di dc rest (by simp) hkvs]
          simp

/-- `JSON.parse` inverts `JSON.stringify(·, null, 2)`. -/
theorem parse_stringify (j : Json) : parse (stringify j) = some j := by
  have hfuel : jsize j ≤ (printJson 0 j).length + 1 := by
    have := (jsize_le_printJson (jsize j)).1 j 0 (Nat.le_refl _)
    omega
  have hmain := (parse_printJson ((printJson 0 j).length + 1)).1 j 0 []
    hfuel trivial
  rw [List.append_nil] at hmain
  rw [parse, stringify]
  simp only [hmain]
  rfl

end Persist

open Persist in
/-- C2: for every `queryId`, `fileName` and JSON value `obj`,
`storeJsonFile(queryId, fileName, obj)` followed by
`retrieveJsonFile(queryId, fileName)` on the resulting file system —
with no intervening write or removal of that path — returns a value
structurally equal to `obj`: the persisted index survives a
write-then-read round-trip. -/
theorem claim_C2_store_retrieve_roundtrip (storagePath : String)
    (fs : FileSystem) (queryId fileName : String) (obj : Json) :
    retrieveJsonFile storagePath
        (storeJsonFile storagePath fs queryId fileName obj)
        queryId fileName = some obj := by
  rw [retrieveJsonFile, storeJsonFile, readFile, writeFile]
  simp only [if_true, Option.some_bind]
  exact parse_stringify obj
